import Mathlib

/-!
# Verification of the EUDI Nexus reference-graph engine

Shallow embedding of the reference-extraction, identifier-normalization,
graph-assembly and crawl-controller code of the `eudi-nexus` repository
(`scripts/extract-references.js`, here `part_001`, and the iterative
crawler half of `scripts/download-specs.js`), together with proofs and
refutations of the frozen claims about that code.

Conventions:
* JavaScript strings are modelled as `String` / `List Char`; regex scans
  are modelled by dedicated recursive matchers that mirror the concrete
  regular expressions of the source (leftmost match, greedy quantifiers,
  `g`-flag restart after each match, `i`-flag case folding over ASCII).
  The `\s` class is modelled over the whitespace characters that occur in
  extracted document text (ASCII whitespace and NBSP).
* JavaScript `Set` objects are modelled as insertion-ordered duplicate-free
  `List String` (`addU` appends if absent); `Map` objects as insertion-ordered
  association lists.
* `parseInt(s, 10)` on an all-digit string is `digitsToNat`; template-string
  printing of the resulting number is `natRepr` (fuel-based decimal printer).
-/

namespace EudiNexus

/-- Characters of a JavaScript string. -/
abbrev Chars := List Char

/-- The `\s` character class as it applies to the extracted document text
(ASCII whitespace plus no-break space). -/
def isSpaceC (c : Char) : Bool :=
  c = ' ' || c = '\t' || c = '\n' || c = '\r' || c = '\x0b' || c = '\x0c' || c.toNat = 160

/-- The `\w` character class: ASCII letters, digits and underscore. -/
def isWordC (c : Char) : Bool :=
  c.isAlpha || c.isDigit || c = '_'

/-- Numeric value of a decimal digit character. -/
def digitVal (c : Char) : Nat := c.toNat - 48

/-- `parseInt(s, 10)` restricted to all-digit strings: fold the decimal value. -/
def digitsToNat (s : Chars) : Nat :=
  s.foldl (fun acc c => 10 * acc + digitVal c) 0

/-- Decimal digit character for a value `< 10`. -/
def digitChar (n : Nat) : Char := Char.ofNat (48 + n)

/-- Fuel-based decimal printer (the model of JavaScript number-to-string
conversion in template literals). -/
def natReprAux : Nat → Nat → Chars
  | 0, _ => []
  | fuel + 1, n =>
    if n < 10 then [digitChar n]
    else natReprAux fuel (n / 10) ++ [digitChar (n % 10)]

/-- Decimal representation of a natural number. -/
def natRepr (n : Nat) : String := ⟨natReprAux (n + 1) n⟩

/-- Uppercase a character (ASCII). -/
def upC (c : Char) : Char := c.toUpper

/-- Lowercase a character (ASCII). -/
def lowC (c : Char) : Char := c.toLower

/-- `s.toUpperCase()`. -/
def upStr (s : String) : String := ⟨s.toList.map upC⟩

/-- Case-insensitive character comparison (ASCII folding, as the `i` flag). -/
def eqCI (a b : Char) : Bool := lowC a = lowC b

/-- Match a literal case-insensitively at the head; return the remaining input. -/
def litCI : Chars → Chars → Option Chars
  | [], s => some s
  | _ :: _, [] => none
  | l :: ls, c :: cs => if eqCI l c then litCI ls cs else none

/-- Match a literal case-sensitively at the head; return the remaining input. -/
def litCS : Chars → Chars → Option Chars
  | [], s => some s
  | _ :: _, [] => none
  | l :: ls, c :: cs => if l = c then litCS ls cs else none

/-- Maximal run of decimal digits (`\d+` / `\d*` greedy). -/
def spanDigits : Chars → Chars × Chars
  | [] => ([], [])
  | c :: cs =>
    if c.isDigit then
      let (d, r) := spanDigits cs
      (c :: d, r)
    else ([], c :: cs)

/-- Maximal run of whitespace (`\s*` greedy; whitespace never precedes a
required non-whitespace atom in the modelled patterns, so no backtracking). -/
def skipWs (s : Chars) : Chars := s.dropWhile isSpaceC

/-- `\s+`: at least one whitespace character, then maximal munch. -/
def skipWs1 : Chars → Option Chars
  | [] => none
  | c :: cs => if isSpaceC c then some (skipWs cs) else none

/-- Replace each whitespace run by a single copy of `rep`
(`str.replace(/\s+/g, rep)`; fuel-based recursion, the fuel is instantiated
with the length of the input, which suffices because every step consumes at
least one character). -/
def wsRunsTo (rep : Char) : Nat → Chars → Chars
  | 0, _ => []
  | _ + 1, [] => []
  | fuel + 1, c :: cs =>
    if isSpaceC c then rep :: wsRunsTo rep fuel (cs.dropWhile isSpaceC)
    else c :: wsRunsTo rep fuel cs

/-- Collapse whitespace runs to single spaces and trim:
`str.replace(/\s+/g, ' ').trim()`. -/
def collapseWs (s : Chars) : Chars :=
  let collapsed := wsRunsTo ' ' s.length s
  ((collapsed.dropWhile isSpaceC).reverse.dropWhile isSpaceC).reverse

/-- Trim whitespace at both ends (`String.prototype.trim`). -/
def trimWs (s : Chars) : Chars :=
  ((s.dropWhile isSpaceC).reverse.dropWhile isSpaceC).reverse

/-!
## Global regex scanning

A matcher receives the character preceding the current position (for
lookbehind/word-boundary assertions) and the input from the current
position; on success it returns the capture payload and the remaining
input after the match.  `scanM` mirrors a `while ((match = pattern.exec(text)))`
loop with the `g` flag: leftmost match, resume after the matched text.
Every modelled pattern matches at least one character, so fuel equal to
the input length bounds the number of steps.
-/

/-- One `pattern.exec` search step loop: find all successive matches. -/
def scanM {α : Type} (m : Option Char → Chars → Option (α × Chars)) :
    Nat → Option Char → Chars → List α
  | 0, _, _ => []
  | _ + 1, _, [] => []
  | fuel + 1, prev, c :: cs =>
    match m prev (c :: cs) with
    | some (a, rest) =>
      let k := (c :: cs).length - rest.length
      let prevNext := ((c :: cs).take k).getLast?
      a :: scanM m fuel (if prevNext.isSome then prevNext else prev) rest
    | none => scanM m fuel (some c) cs

/-- Run a global scan over a string. -/
def scanStr {α : Type} (m : Option Char → Chars → Option (α × Chars)) (s : String) :
    List α :=
  scanM m (s.toList.length + 1) none s.toList

/-- The six primary-standard type codes of the `(EN|TS|TR|ES|EG|SR)` alternation. -/
def typeCodes : List String := ["EN", "TS", "TR", "ES", "EG", "SR"]

/-- Match the two-letter type-code alternation case-insensitively; the code is
returned uppercased (its only use in the source is `match[1].toUpperCase()`). -/
def matchTypeCode : Chars → Option (String × Chars)
  | c1 :: c2 :: rest =>
    let u : String := ⟨[upC c1, upC c2]⟩
    if u ∈ typeCodes then some (u, rest) else none
  | _ => none

/-- Match the number group `(\d{3}\s*\d{3}(?:-\d+)?)`, returning the raw
captured characters. -/
def matchEtsiNum : Chars → Option (Chars × Chars)
  | a :: b :: c :: rest =>
    if a.isDigit && b.isDigit && c.isDigit then
      let ws := rest.takeWhile isSpaceC
      match rest.dropWhile isSpaceC with
      | d :: e :: f :: rest3 =>
        if d.isDigit && e.isDigit && f.isDigit then
          match rest3 with
          | '-' :: rest4 =>
            let (p, rest5) := spanDigits rest4
            if p.isEmpty then some ([a, b, c] ++ ws ++ [d, e, f], rest3)
            else some ([a, b, c] ++ ws ++ [d, e, f] ++ '-' :: p, rest5)
          | _ => some ([a, b, c] ++ ws ++ [d, e, f], rest3)
        else none
      | _ => none
    else none
  | _ => none

/-- `/ETSI\s+(EN|TS|TR|ES|EG|SR)\s+(\d{3}\s*\d{3}(?:-\d+)?)/gi` (first ETSI
pattern of `REF_PATTERNS.etsi`). -/
def matchEtsi1 (_ : Option Char) (s : Chars) : Option ((String × Chars) × Chars) := do
  let r1 ← litCI "ETSI".toList s
  let r2 ← skipWs1 r1
  let (ty, r3) ← matchTypeCode r2
  let r4 ← skipWs1 r3
  let (num, rest) ← matchEtsiNum r4
  pure ((ty, num), rest)

/-- `/(?<![A-Z])(EN|TS|TR|ES|EG|SR)\s+(\d{3}\s*\d{3}(?:-\d+)?)/gi` (second ETSI
pattern; the negative lookbehind rejects a preceding ASCII letter because the
`i` flag folds `[A-Z]`). -/
def matchEtsi2 (prev : Option Char) (s : Chars) : Option ((String × Chars) × Chars) := do
  match prev with
  | some p => if p.isAlpha then none else pure ()
  | none => pure ()
  let (ty, r1) ← matchTypeCode s
  let r2 ← skipWs1 r1
  let (num, rest) ← matchEtsiNum r2
  pure ((ty, num), rest)

/-- `/RFC\s*(\d{3,5})/gi`: the capture is the raw digit run, truncated greedily
at five digits, required to have at least three. -/
def matchIetf (_ : Option Char) (s : Chars) : Option (Chars × Chars) := do
  let r1 ← litCI "RFC".toList s
  let r2 := skipWs r1
  let (d, rest) := spanDigits r2
  if d.length < 3 then none
  else pure (d.take 5, d.drop 5 ++ rest)

/-- The `(?:[-–]\d+)*` tail of the ISO/CEN number groups (greedy star). -/
def matchDashNums : Nat → Chars → Chars × Chars
  | 0, s => ([], s)
  | fuel + 1, s =>
    match s with
    | c :: rest =>
      if c = '-' || c = '–' then
        let (d, r) := spanDigits rest
        if d.isEmpty then ([], s)
        else
          let (t, r2) := matchDashNums fuel r
          (c :: (d ++ t), r2)
      else ([], s)
    | [] => ([], [])

/-- `/ISO(?:\/IEC)?\s+(\d+(?:[-–]\d+)*)/gi`. -/
def matchIso (_ : Option Char) (s : Chars) : Option (Chars × Chars) := do
  let r1 ← litCI "ISO".toList s
  let r2 := match litCI "/IEC".toList r1 with
    | some r => r
    | none => r1
  let r3 ← skipWs1 r2
  let (d, r4) := spanDigits r3
  if d.isEmpty then none
  else
    let (t, rest) := matchDashNums r4.length r4
    pure (d ++ t, rest)

/-- `/ITU-T\s+([A-Z]\.?\s*\d+(?:\.\d+)?)/gi` (the `i` flag lets `[A-Z]` match
any ASCII letter). -/
def matchItu (_ : Option Char) (s : Chars) : Option (Chars × Chars) := do
  let r1 ← litCI "ITU-T".toList s
  let r2 ← skipWs1 r1
  match r2 with
  | l :: r3 =>
    if l.isAlpha then
      -- greedy optional dot, with backtracking: a dot not followed by
      -- `\s*\d+` makes the whole alternative fail either way.
      let withDot : Option (Chars × Chars) :=
        match r3 with
        | '.' :: r4 =>
          let ws := r4.takeWhile isSpaceC
          let (d, r5) := spanDigits (r4.dropWhile isSpaceC)
          if d.isEmpty then none else some ('.' :: (ws ++ d), r5)
        | _ => none
      let core : Option (Chars × Chars) :=
        match withDot with
        | some x => some x
        | none =>
          let ws := r3.takeWhile isSpaceC
          let (d, r5) := spanDigits (r3.dropWhile isSpaceC)
          if d.isEmpty then none else some (ws ++ d, r5)
      match core with
      | none => none
      | some (mid, r6) =>
        match r6 with
        | '.' :: r7 =>
          let (f, r8) := spanDigits r7
          if f.isEmpty then pure (l :: mid, r6)
          else pure (l :: (mid ++ '.' :: f), r8)
        | _ => pure (l :: mid, r6)
    else none
  | [] => none

/-- `/W3C\s+([\w-]+)/gi`. -/
def matchW3c (_ : Option Char) (s : Chars) : Option (Chars × Chars) := do
  let r1 ← litCI "W3C".toList s
  let r2 ← skipWs1 r1
  let tok := r2.takeWhile (fun c => isWordC c || c = '-')
  if tok.isEmpty then none
  else pure (tok, r2.dropWhile (fun c => isWordC c || c = '-'))

/-- The optional version tail `(?:\s+[\d.]+)?` of the OIDF patterns:
whitespace followed by at least one digit-or-dot character, or nothing. -/
def optVer (s : Chars) : Chars :=
  let ws := s.takeWhile isSpaceC
  if ws.isEmpty then s
  else
    let r := s.dropWhile isSpaceC
    let v := r.takeWhile (fun c => c.isDigit || c = '.')
    if v.isEmpty then s else r.dropWhile (fun c => c.isDigit || c = '.')

/-- The raw `match[0]` of a match that consumed `s` down to `rest`. -/
def rawOf (s rest : Chars) : Chars := s.take (s.length - rest.length)

/-- `/OpenID4VP(?:\s+[\d.]+)?/gi`. -/
def matchOidf1 (_ : Option Char) (s : Chars) : Option (Chars × Chars) := do
  let r1 ← litCI "OpenID4VP".toList s
  let rest := optVer r1
  pure (rawOf s rest, rest)

/-- `/OpenID4VCI(?:\s+[\d.]+)?/gi`. -/
def matchOidf2 (_ : Option Char) (s : Chars) : Option (Chars × Chars) := do
  let r1 ← litCI "OpenID4VCI".toList s
  let rest := optVer r1
  pure (rawOf s rest, rest)

/-- `/OpenID4VC(?:-HAIP)?(?:\s+[\d.]+)?/gi`. -/
def matchOidf3 (_ : Option Char) (s : Chars) : Option (Chars × Chars) := do
  let r1 ← litCI "OpenID4VC".toList s
  let r2 := match litCI "-HAIP".toList r1 with
    | some r => r
    | none => r1
  let rest := optVer r2
  pure (rawOf s rest, rest)

/-- `/OpenID\s+Connect(?:\s+Core)?(?:\s+[\d.]+)?/gi`. -/
def matchOidf4 (_ : Option Char) (s : Chars) : Option (Chars × Chars) := do
  let r1 ← litCI "OpenID".toList s
  let r2 ← skipWs1 r1
  let r3 ← litCI "Connect".toList r2
  let r4 := match skipWs1 r3 with
    | some ra =>
      match litCI "Core".toList ra with
      | some rb => rb
      | none => r3
    | none => r3
  let rest := optVer r4
  pure (rawOf s rest, rest)

/-- `/OpenID\s+for\s+Verifiable\s+(?:Presentations?|Credentials?)(?:\s+[\d.]+)?/gi`. -/
def matchOidf5 (_ : Option Char) (s : Chars) : Option (Chars × Chars) := do
  let r1 ← litCI "OpenID".toList s
  let r2 ← skipWs1 r1
  let r3 ← litCI "for".toList r2
  let r4 ← skipWs1 r3
  let r5 ← litCI "Verifiable".toList r4
  let r6 ← skipWs1 r5
  let r7 ← (match litCI "Presentation".toList r6 with
    | some ra =>
      some (match litCI "s".toList ra with
        | some rb => rb
        | none => ra)
    | none =>
      match litCI "Credential".toList r6 with
      | some ra =>
        some (match litCI "s".toList ra with
          | some rb => rb
          | none => ra)
      | none => none)
  let rest := optVer r7
  pure (rawOf s rest, rest)

/-- `/SD-JWT(?:\s+VC)?/gi`. -/
def matchOidf6 (_ : Option Char) (s : Chars) : Option (Chars × Chars) := do
  let r1 ← litCI "SD-JWT".toList s
  let r2 := match skipWs1 r1 with
    | some ra =>
      match litCI "VC".toList ra with
      | some rb => rb
      | none => r1
    | none => r1
  pure (rawOf s r2, r2)

/-- `/\bHAIP\b/g` (case-sensitive, word boundaries on both sides). -/
def matchOidf7 (prev : Option Char) (s : Chars) : Option (Chars × Chars) := do
  match prev with
  | some p => if isWordC p then none else pure ()
  | none => pure ()
  let r1 ← litCS "HAIP".toList s
  match r1 with
  | c :: _ => if isWordC c then none else pure (rawOf s r1, r1)
  | [] => pure (rawOf s r1, r1)

/-- `(?:CEN|CENELEC)\s+(\d+(?:[-–]\d+)*)` at the current position, with the
ordered alternation backtracking from `CEN` into `CENELEC`. -/
def matchCen (_ : Option Char) (s : Chars) : Option (Chars × Chars) :=
  let tail (r : Chars) : Option (Chars × Chars) := do
    let r2 ← skipWs1 r
    let (d, r3) := spanDigits r2
    if d.isEmpty then none
    else
      let (t, rest) := matchDashNums r3.length r3
      pure (d ++ t, rest)
  match litCI "CEN".toList s with
  | some r1 =>
    match tail r1 with
    | some x => some x
    | none =>
      match litCI "CENELEC".toList s with
      | some r2 => tail r2
      | none => none
  | none => none

/-!
## Substring tests used by the OIDF normalization chain
-/

/-- Does `litCI needle` succeed at some position of the haystack
(`/needle/i.test(s)` for a literal needle)? -/
def containsCIAux : Nat → Chars → Chars → Bool
  | 0, n, _ => n.isEmpty
  | _ + 1, n, [] => n.isEmpty
  | fuel + 1, n, h :: t => (litCI n (h :: t)).isSome || containsCIAux fuel n t

/-- Case-insensitive substring containment. -/
def containsCI (needle s : String) : Bool :=
  containsCIAux (s.toList.length + 1) needle.toList s.toList

/-- Anchored test for `OpenID\s+(for\s+)?Verifiable\s+<kw>`. -/
def verifiableAt (kw : Chars) (s : Chars) : Bool :=
  (do
    let r1 ← litCI "OpenID".toList s
    let r2 ← skipWs1 r1
    let r3 := match (litCI "for".toList r2).bind skipWs1 with
      | some ra => ra
      | none => r2
    let r4 ← litCI "Verifiable".toList r3
    let r5 ← skipWs1 r4
    litCI kw r5).isSome

/-- Anchored test for `SD-JWT\s*VC`. -/
def sdJwtVcAt (s : Chars) : Bool :=
  (do
    let r1 ← litCI "SD-JWT".toList s
    litCI "VC".toList (skipWs r1)).isSome

/-- Anchored test for `OpenID\s+Connect`. -/
def openIdConnectAt (s : Chars) : Bool :=
  (do
    let r1 ← litCI "OpenID".toList s
    let r2 ← skipWs1 r1
    litCI "Connect".toList r2).isSome

/-- Run an anchored Boolean test at every position (`RegExp.prototype.test`). -/
def testAnywhereAux (p : Chars → Bool) : Nat → Chars → Bool
  | 0, s => p s
  | _ + 1, [] => p []
  | fuel + 1, s@(_ :: t) => p s || testAnywhereAux p fuel t

/-- Unanchored regex test over a string. -/
def testAnywhere (p : Chars → Bool) (s : String) : Bool :=
  testAnywhereAux p s.toList.length s.toList

/-- The normalization chain applied to each raw OIDF match
(`let spec = match[0].trim(); if (/OpenID4VP/i.test(spec)) ... `). -/
def normalizeOidfSpec (raw : Chars) : String :=
  let spec : String := ⟨trimWs raw⟩
  if containsCI "OpenID4VP" spec then "OpenID4VP"
  else if containsCI "OpenID4VCI" spec then "OpenID4VCI"
  else if containsCI "OpenID4VC-HAIP" spec || containsCI "OpenID4VC HAIP" spec then
    "OpenID4VC-HAIP"
  else if containsCI "OpenID4VC" spec then "OpenID4VC"
  else if testAnywhere (verifiableAt "Presentation".toList) spec then "OpenID4VP"
  else if testAnywhere (verifiableAt "Credential".toList) spec then "OpenID4VCI"
  else if testAnywhere openIdConnectAt spec then "OpenID Connect"
  else if testAnywhere sdJwtVcAt spec then "SD-JWT VC"
  else if containsCI "SD-JWT" spec then "SD-JWT"
  else if spec.toList.map lowC = "haip".toList then "HAIP"
  else spec

/-!
## Reference extraction (`extractAllRefs`)
-/

/-- `Set.prototype.add`: append if absent (JavaScript sets keep insertion
order and ignore duplicate additions). -/
def addU (l : List String) (x : String) : List String :=
  if x ∈ l then l else l ++ [x]

/-- The per-text match sets of `extractAllRefs`, in the key insertion order of
the source object (the `cen` key is initialized but `extractAllRefs` contains
no extraction loop for `REF_PATTERNS.cen`, so that set is always empty). -/
structure RawRefs where
  etsi : List String
  ietf : List String
  iso : List String
  itu : List String
  w3c : List String
  oidf : List String
  cen : List String
  deriving Repr, DecidableEq

/-- `extractAllRefs(text)`: run every recognizer of `REF_PATTERNS` over the
text and collect normalized identifiers per domain. -/
def extractAllRefs (text : String) : RawRefs :=
  let etsiMatches := scanStr matchEtsi1 text ++ scanStr matchEtsi2 text
  let etsi := etsiMatches.foldl
    (fun l p => addU l (p.1 ++ " " ++ (⟨collapseWs p.2⟩ : String))) []
  let ietf := (scanStr matchIetf text).foldl
    (fun l d => addU l ("RFC " ++ (⟨d⟩ : String))) []
  let iso := (scanStr matchIso text).foldl
    (fun l d => addU l ("ISO " ++ (⟨d.map fun c => if c = '–' then '-' else c⟩ : String))) []
  let itu := (scanStr matchItu text).foldl
    (fun l d => addU l ("ITU-T " ++ (⟨d.filter fun c => !(isSpaceC c || c = '.')⟩ : String))) []
  let w3c := (scanStr matchW3c text).foldl
    (fun l d =>
      if (⟨d.map lowC⟩ : String) ≠ "technical" && (⟨d.map lowC⟩ : String) ≠ "recommendation"
      then addU l ("W3C " ++ (⟨d⟩ : String)) else l) []
  let oidfMatches := scanStr matchOidf1 text ++ scanStr matchOidf2 text ++
    scanStr matchOidf3 text ++ scanStr matchOidf4 text ++ scanStr matchOidf5 text ++
    scanStr matchOidf6 text ++ scanStr matchOidf7 text
  let oidf := oidfMatches.foldl (fun l raw => addU l (normalizeOidfSpec raw)) []
  ⟨etsi, ietf, iso, itu, w3c, oidf, []⟩

/-!
## Identifier normalization (`filenameToDocId`, `normalizeDocId`,
`docxFilenameToDocId`)
-/

/-- Exactly three decimal digits (`\d{3}` followed by anything). -/
def take3Digits : Chars → Option (Chars × Chars)
  | a :: b :: c :: rest =>
    if a.isDigit && b.isDigit && c.isDigit then some ([a, b, c], rest) else none
  | _ => none

/-- Unanchored leftmost application of an anchored matcher
(`String.prototype.match` without the `g` flag). -/
def searchOpt {α : Type} (p : Chars → Option α) : Nat → Chars → Option α
  | 0, s => p s
  | _ + 1, [] => p []
  | fuel + 1, s@(_ :: t) =>
    match p s with
    | some r => some r
    | none => searchOpt p fuel t

/-- `filenameToDocId(filename)`: anchored
`/^(en|ts|tr|es|eg|sr)_(\d+)(?:v\d+)?/i`, then split of the digit group by
length (6 digits: `NNN NNN`; 8 or 9 digits: `NNN NNN-P` with the trailing
1–3 digits parsed as the part number; other lengths pass through unsplit). -/
def filenameToDocId (filename : String) : Option String :=
  match matchTypeCode filename.toList with
  | none => none
  | some (ty, r1) =>
    match r1 with
    | '_' :: r2 =>
      let (num, _) := spanDigits r2
      if num.isEmpty then none
      else if num.length = 6 then
        some (ty ++ " " ++ (⟨num.take 3⟩ : String) ++ " " ++ (⟨num.drop 3⟩ : String))
      else if num.length = 8 || num.length = 9 then
        some (ty ++ " " ++ (⟨num.take 3⟩ : String) ++ " " ++ (⟨(num.drop 3).take 3⟩ : String)
          ++ "-" ++ natRepr (digitsToNat (num.drop 6)))
      else
        some (ty ++ " " ++ (⟨num⟩ : String))
    | _ => none

/-- Anchored core of `normalizeDocId`:
`(EN|TS|TR|ES|EG|SR)\s*(\d{3})\s*(\d{3})(?:-(\d+))?` with `parseInt` applied
to the optional part capture. -/
def normAt (s : Chars) : Option String :=
  match matchTypeCode s with
  | none => none
  | some (ty, r1) =>
    match take3Digits (skipWs r1) with
    | none => none
    | some (n1, r3) =>
      match take3Digits (skipWs r3) with
      | none => none
      | some (n2, r5) =>
        let core := ty ++ " " ++ (⟨n1⟩ : String) ++ " " ++ (⟨n2⟩ : String)
        match r5 with
        | '-' :: r6 =>
          let (p, _) := spanDigits r6
          if p.isEmpty then some core
          else some (core ++ "-" ++ natRepr (digitsToNat p))
        | _ => some core

/-- `normalizeDocId(ref)` for a non-null argument (the `if (!ref) return null`
guard is modelled by `Option.bind` at the call sites that may pass null). -/
def normalizeDocId (ref : String) : Option String :=
  searchOpt normAt ref.toList.length ref.toList

/-- The `[\s_-]` separator class of the draft-filename patterns. -/
def isSepC (c : Char) : Bool := isSpaceC c || c = '_' || c = '-'

/-- Anchored core of the first draft-filename pattern
`/ESI-(\d{3})(\d{4,5})-?(\d)?/i`. -/
def esiAt (s : Chars) : Option String := do
  let r1 ← litCI "ESI-".toList s
  let (n1, r2) ← take3Digits r1
  let (d, r3) := spanDigits r2
  if d.length < 4 then none
  else
    let g2 := d.take 5
    let rest := d.drop 5 ++ r3
    let rest2 := match rest with
      | '-' :: t => t
      | _ => rest
    let part : String := match rest2 with
      | c :: _ => if c.isDigit then "-" ++ natRepr (digitVal c) else ""
      | [] => ""
    pure ("TS " ++ (⟨n1⟩ : String) ++ " " ++ (⟨g2.take 3⟩ : String) ++ part)

/-- The `(TS|TR|EN|ES)` alternation of the second draft-filename pattern. -/
def matchTypeCode4 : Chars → Option (String × Chars)
  | c1 :: c2 :: rest =>
    let u : String := ⟨[upC c1, upC c2]⟩
    if u ∈ ["TS", "TR", "EN", "ES"] then some (u, rest) else none
  | _ => none

/-- Anchored core of the second draft-filename pattern
`/(TS|TR|EN|ES)[\s_-]*(\d{3})[\s_-]*(\d{3})(?:[\s_-]*(\d+))?/i`. -/
def docx2At (s : Chars) : Option String := do
  let (ty, r1) ← matchTypeCode4 s
  let (n1, r3) ← take3Digits (r1.dropWhile isSepC)
  let (n2, r5) ← take3Digits (r3.dropWhile isSepC)
  let (p, _) := spanDigits (r5.dropWhile isSepC)
  let part : String := if p.isEmpty then "" else "-" ++ natRepr (digitsToNat p)
  pure (ty ++ " " ++ (⟨n1⟩ : String) ++ " " ++ (⟨n2⟩ : String) ++ part)

/-- `docxFilenameToDocId(filename)`: first draft pattern, then the fallback
pattern, both unanchored. -/
def docxFilenameToDocId (filename : String) : Option String :=
  match searchOpt esiAt filename.toList.length filename.toList with
  | some r => some r
  | none => searchOpt docx2At filename.toList.length filename.toList

/-!
## Per-document classification
(`extractReferencesFromPdf` / `extractReferencesFromDocx` below the section
split; the two function bodies are identical once the format-specific text
acquisition and `extractReferencesSection` are factored out, so both are
modelled by `extractRefsCore` applied to the optional region texts)
-/

/-- The per-domain accumulator objects (`normative`, `informative`, `all`);
these are created with exactly the six domain keys, so a `cen` entry of
`extractAllRefs` has no target (`normative[type]?.add(ref)` is skipped). -/
structure DomainSets where
  etsi : List String
  ietf : List String
  iso : List String
  itu : List String
  w3c : List String
  oidf : List String
  deriving Repr, DecidableEq

/-- The empty accumulator. -/
def DomainSets.empty : DomainSets := ⟨[], [], [], [], [], []⟩

/-- The six identifier domains of the accumulators. -/
inductive Domain
  | etsi
  | ietf
  | iso
  | itu
  | w3c
  | oidf
  deriving Repr, DecidableEq

/-- Field accessor for an accumulator. -/
def DomainSets.get (m : DomainSets) : Domain → List String
  | .etsi => m.etsi
  | .ietf => m.ietf
  | .iso => m.iso
  | .itu => m.itu
  | .w3c => m.w3c
  | .oidf => m.oidf

/-- Field accessor of the raw match sets, restricted to the six accumulator
domains. -/
def RawRefs.get (r : RawRefs) : Domain → List String
  | .etsi => r.etsi
  | .ietf => r.ietf
  | .iso => r.iso
  | .itu => r.itu
  | .w3c => r.w3c
  | .oidf => r.oidf

/-- Add every element of `refs` to a set (`for (const ref of set) acc.add(ref)`). -/
def addList (acc refs : List String) : List String := refs.foldl addU acc

/-- The normative-region pass: every extracted reference is added to both the
`normative` and the `all` accumulator of its domain; the `cen` set has no
accumulator key and is dropped.  (The source interleaves the two additions per
reference; since they target independent objects, adding per field is the same.) -/
def transferNorm (refs : RawRefs) (norm all : DomainSets) : DomainSets × DomainSets :=
  (⟨addList norm.etsi refs.etsi, addList norm.ietf refs.ietf, addList norm.iso refs.iso,
    addList norm.itu refs.itu, addList norm.w3c refs.w3c, addList norm.oidf refs.oidf⟩,
   ⟨addList all.etsi refs.etsi, addList all.ietf refs.ietf, addList all.iso refs.iso,
    addList all.itu refs.itu, addList all.w3c refs.w3c, addList all.oidf refs.oidf⟩)

/-- One field of the informative-region pass: a reference already present in
the normative set of the same domain is not classified informative
(`if (!normative[type]?.has(ref)) informative[type]?.add(ref)`). -/
def addListGuard (normF acc refs : List String) : List String :=
  refs.foldl (fun l r => if r ∈ normF then l else addU l r) acc

/-- The informative-region pass (normative precedence per domain; every
reference still goes into `all`). -/
def transferInf (refs : RawRefs) (norm inf all : DomainSets) : DomainSets × DomainSets :=
  (⟨addListGuard norm.etsi inf.etsi refs.etsi, addListGuard norm.ietf inf.ietf refs.ietf,
    addListGuard norm.iso inf.iso refs.iso, addListGuard norm.itu inf.itu refs.itu,
    addListGuard norm.w3c inf.w3c refs.w3c, addListGuard norm.oidf inf.oidf refs.oidf⟩,
   ⟨addList all.etsi refs.etsi, addList all.ietf refs.ietf, addList all.iso refs.iso,
    addList all.itu refs.itu, addList all.w3c refs.w3c, addList all.oidf refs.oidf⟩)

/-- The whole-document fallback pass: additions go to `all` only. -/
def transferAll (refs : RawRefs) (all : DomainSets) : DomainSets :=
  ⟨addList all.etsi refs.etsi, addList all.ietf refs.ietf, addList all.iso refs.iso,
   addList all.itu refs.itu, addList all.w3c refs.w3c, addList all.oidf refs.oidf⟩

/-- Lexicographic comparison of character lists by code point (the default
`Array.prototype.sort` comparison over the code units of these identifiers). -/
def leChars : Chars → Chars → Bool
  | [], _ => true
  | _ :: _, [] => false
  | a :: as, b :: bs =>
    if a.toNat < b.toNat then true
    else if b.toNat < a.toNat then false
    else leChars as bs

/-- String comparison used by the sort model. -/
def strLeB (a b : String) : Bool := leChars a.toList b.toList

/-- `Array.from(set).sort()`. -/
def sortStr (l : List String) : List String :=
  l.insertionSort fun a b => strLeB a b = true

/-- `Array.from(set).sort()` on each domain set. -/
def DomainSets.toArrays (m : DomainSets) : DomainSets :=
  ⟨sortStr m.etsi, sortStr m.ietf, sortStr m.iso, sortStr m.itu, sortStr m.w3c, sortStr m.oidf⟩

/-- Result of one document's extraction. -/
structure ExtractResult where
  normative : DomainSets
  informative : DomainSets
  all : DomainSets
  deriving Repr, DecidableEq

/-- Shared body of `extractReferencesFromPdf` and `extractReferencesFromDocx`:
classify the references of the optional normative/informative region texts,
with the whole-document fallback when neither region yielded a primary-standard
(ETSI) reference (`hasStructuredRefs = normative.etsi.size > 0 ||
informative.etsi.size > 0`). -/
def extractRefsCore (normR infR : Option String) (text : String) : ExtractResult :=
  let e := DomainSets.empty
  let (norm, all1) := match normR with
    | some t => transferNorm (extractAllRefs t) e e
    | none => (e, e)
  let (inf, all2) := match infR with
    | some t => transferInf (extractAllRefs t) norm e all1
    | none => (e, all1)
  let all3 :=
    if norm.etsi.isEmpty && inf.etsi.isEmpty then transferAll (extractAllRefs text) all2
    else all2
  ⟨norm.toArrays, inf.toArrays, all3.toArrays⟩

/-!
## Graph assembly (`extractReferences`, `ensureNode`, `ensureExternalNode`)
-/

/-- A graph node (`type` and `from` are Lean keywords, rendered `ntype`/`efrom`). -/
structure GNode where
  id : String
  ntype : String
  source : String
  path : Option String
  referencesCount : Nat
  referencedByCount : Nat
  isDraft : Bool
  deriving Repr, DecidableEq

/-- A reference edge. -/
structure GEdge where
  efrom : String
  eto : String
  etype : String
  esource : String
  deriving Repr, DecidableEq

/-- The graph under construction: an insertion-ordered map of nodes plus the
edge list. -/
structure RefGraph where
  nodes : List (String × GNode)
  edges : List GEdge
  deriving Repr, DecidableEq

/-- `Map.prototype.get`. -/
def nget : List (String × GNode) → String → Option GNode
  | [], _ => none
  | (k, v) :: rest, id => if k = id then some v else nget rest id

/-- `Map.prototype.set`: replace in place, or append a new key. -/
def nset : List (String × GNode) → String → GNode → List (String × GNode)
  | [], id, v => [(id, v)]
  | (k, w) :: rest, id, v =>
    if k = id then (id, v) :: rest else (k, w) :: nset rest id v

/-- Mutate the node stored under a key (`graph.nodes.get(id).field = ...`). -/
def nmod : List (String × GNode) → String → (GNode → GNode) → List (String × GNode)
  | [], _, _ => []
  | (k, v) :: rest, id, f =>
    if k = id then (k, f v) :: rest else (k, v) :: nmod rest id f

/-- `Map.prototype.has`. -/
def nhas (m : List (String × GNode)) (id : String) : Bool :=
  (nget m id).isSome

/-- `docId.split(' ')[0]`. -/
def firstToken (s : String) : String :=
  ⟨s.toList.takeWhile (· ≠ ' ')⟩

/-- `ensureNode(graph, docId, source = 'etsi')`. -/
def ensureNode (g : RefGraph) (docId source : String) : RefGraph :=
  if nhas g.nodes docId then g
  else { g with nodes := nset g.nodes docId ⟨docId, firstToken docId, source, none, 0, 0, false⟩ }

/-- `ensureExternalNode(graph, ref, source)` (same body as `ensureNode`). -/
def ensureExternalNode (g : RefGraph) (ref source : String) : RefGraph :=
  if nhas g.nodes ref then g
  else { g with nodes := nset g.nodes ref ⟨ref, firstToken ref, source, none, 0, 0, false⟩ }

/-- `graph.nodes.get(id).referencedByCount++`. -/
def bumpInbound (g : RefGraph) (id : String) : RefGraph :=
  { g with nodes := nmod g.nodes id fun n => { n with referencedByCount := n.referencedByCount + 1 } }

/-- `graph.edges.push(e)`. -/
def pushEdge (g : RefGraph) (e : GEdge) : RefGraph :=
  { g with edges := g.edges ++ [e] }

/-- One primary-standard (ETSI) reference of the source document: normalize,
skip unparseable targets and self-loops, push the edge, ensure the target node,
bump its inbound count. -/
def addEtsiRef (docId etype : String) (g : RefGraph) (ref : String) : RefGraph :=
  match normalizeDocId ref with
  | none => g
  | some t =>
    if t = docId then g
    else bumpInbound (ensureNode (pushEdge g ⟨docId, t, etype, "etsi"⟩) t "etsi") t

/-- One external-domain reference: push the edge, ensure the external node,
bump its inbound count (no normalization, no self-loop check). -/
def addExtRef (docId etype extType : String) (g : RefGraph) (ref : String) : RefGraph :=
  bumpInbound (ensureExternalNode (pushEdge g ⟨docId, ref, etype, extType⟩) ref extType) ref

/-- The `externalTypes = ['ietf', 'iso', 'itu', 'w3c', 'oidf']` loop: per
external domain, normative references then informative references. -/
def addExternal (docId : String) (refs : ExtractResult) (g : RefGraph) : RefGraph :=
  let step (g : RefGraph) (extType : String) (normL infL : List String) : RefGraph :=
    infL.foldl (addExtRef docId "informative" extType)
      (normL.foldl (addExtRef docId "normative" extType) g)
  let g := step g "ietf" refs.normative.ietf refs.informative.ietf
  let g := step g "iso" refs.normative.iso refs.informative.iso
  let g := step g "itu" refs.normative.itu refs.informative.itu
  let g := step g "w3c" refs.normative.w3c refs.informative.w3c
  step g "oidf" refs.normative.oidf refs.informative.oidf

/-- `countRefs(refs.all)`: total over the six domain arrays. -/
def countAllRefs (m : DomainSets) : Nat :=
  m.etsi.length + m.ietf.length + m.iso.length + m.itu.length + m.w3c.length + m.oidf.length

/-- `graph.nodes.get(docId).referencesCount = totalCount`. -/
def setRefsCount (g : RefGraph) (docId : String) (n : Nat) : RefGraph :=
  { g with nodes := nmod g.nodes docId fun nd => { nd with referencesCount := n } }

/-- One published (PDF) document as seen by the assembly loop: its storage
path, its file name, and its extraction result. -/
structure PdfDoc where
  path : String
  filename : String
  refs : ExtractResult
  deriving Repr, DecidableEq

/-- One draft (DOCX/DOC) document as seen by the assembly loop. -/
structure DocxDoc where
  path : String
  filename : String
  refs : ExtractResult
  deriving Repr, DecidableEq

/-- The body of the PDF loop of `extractReferences` for one document (the
"could not determine doc ID" and extraction-error branches add nothing to the
graph and are modelled by the `none` case / by absence from the input list). -/
def processPdfDoc (g : RefGraph) (doc : PdfDoc) : RefGraph :=
  match (filenameToDocId doc.filename).bind normalizeDocId with
  | none => g
  | some docId =>
    let total := countAllRefs doc.refs.all
    let g :=
      if nhas g.nodes docId then g
      else { g with
        nodes := nset g.nodes docId ⟨docId, firstToken docId, "etsi", some doc.path, 0, 0, false⟩ }
    let g := setRefsCount g docId total
    let g := doc.refs.normative.etsi.foldl (addEtsiRef docId "normative") g
    let g := doc.refs.informative.etsi.foldl (addEtsiRef docId "informative") g
    addExternal docId doc.refs g

/-- The draft-merge rule applied to an existing node when a draft document with
the same canonical identifier is processed:
`if (!node.path || node.path.endsWith('.docx')) { node.isDraft = true; node.path = docxPath; }`. -/
def mergeDraftNode (docxPath : String) (n : GNode) : GNode :=
  let promotable := match n.path with
    | none => true
    | some p => ".docx".toList.isSuffixOf p.toList
  if promotable then { n with isDraft := true, path := some docxPath } else n

/-- The canonical identifier of a draft document:
`normalizeDocId(filenameToDocId(filename)) || docxFilenameToDocId(filename)`. -/
def docxDocId (doc : DocxDoc) : Option String :=
  match (filenameToDocId doc.filename).bind normalizeDocId with
  | some d => some d
  | none => docxFilenameToDocId doc.filename

/-- The body of the DOCX (draft) loop of `extractReferences` for one document.
The identifier falls back to `docxFilenameToDocId` when the published-filename
parse fails. -/
def processDocxDoc (g : RefGraph) (doc : DocxDoc) : RefGraph :=
  match docxDocId doc with
  | none => g
  | some docId =>
    let total := countAllRefs doc.refs.all
    let g :=
      if nhas g.nodes docId then
        { g with nodes := nmod g.nodes docId (mergeDraftNode doc.path) }
      else { g with
        nodes := nset g.nodes docId ⟨docId, firstToken docId, "etsi", some doc.path, 0, 0, true⟩ }
    let g := setRefsCount g docId total
    let g := doc.refs.normative.etsi.foldl (addEtsiRef docId "normative") g
    let g := doc.refs.informative.etsi.foldl (addEtsiRef docId "informative") g
    addExternal docId doc.refs g

/-- The empty graph. -/
def RefGraph.empty : RefGraph := ⟨[], []⟩

/-- One assembly pass of `extractReferences` over a batch: the PDF loop over
the sorted published documents, then the draft loop. -/
def assembleGraph (pdfs : List PdfDoc) (docxs : List DocxDoc) : RefGraph :=
  docxs.foldl processDocxDoc (pdfs.foldl processPdfDoc RefGraph.empty)

/-!
## Crawl controller (`main`, `findMissingSpecs`, `findOidfUrl`,
`downloadIetfRfcs` of the iterative reference crawler)
-/

/-- The `OIDF_SPEC_URLS` mapping table. -/
def OIDF_SPEC_URLS : List (String × String) :=
  [("OpenID4VP", "https://openid.net/specs/openid-4-verifiable-presentations-1_0.html"),
   ("OpenID4VCI", "https://openid.net/specs/openid-4-verifiable-credential-issuance-1_0.html"),
   ("OpenID4VC-HAIP", "https://openid.net/specs/openid4vc-high-assurance-interoperability-profile-1_0.html"),
   ("HAIP", "https://openid.net/specs/openid4vc-high-assurance-interoperability-profile-1_0.html"),
   ("OpenID Connect", "https://openid.net/specs/openid-connect-core-1_0.html"),
   ("OpenID Connect Core", "https://openid.net/specs/openid-connect-core-1_0.html"),
   ("OpenID Connect Discovery", "https://openid.net/specs/openid-connect-discovery-1_0.html"),
   ("OpenID Connect Dynamic Client Registration", "https://openid.net/specs/openid-connect-registration-1_0.html"),
   ("OpenID Federation", "https://openid.net/specs/openid-federation-1_0.html"),
   ("SD-JWT", "https://www.ietf.org/archive/id/draft-ietf-oauth-selective-disclosure-jwt-13.html"),
   ("SD-JWT VC", "https://www.ietf.org/archive/id/draft-ietf-oauth-sd-jwt-vc-05.html"),
   ("OAuth 2.0 DPoP", "https://datatracker.ietf.org/doc/html/rfc9449"),
   ("OAuth 2.0 PAR", "https://datatracker.ietf.org/doc/html/rfc9126"),
   ("OAuth 2.0 RAR", "https://datatracker.ietf.org/doc/html/rfc9396"),
   ("OpenID4VC", "https://openid.net/specs/")]

/-- Property access on the URL table. -/
def oidfUrlGet (k : String) : Option String :=
  OIDF_SPEC_URLS.lookup k

/-- Anchored test for a token sequence separated by `\s*` gaps. -/
def seqGapAt : List Chars → Chars → Bool
  | [], _ => true
  | tok :: toks, s =>
    match litCI tok s with
    | some r => seqGapAt toks (skipWs r)
    | none => false

/-- `findOidfUrl(specId)`: direct table hit, then the spelled variations, then
the special-pattern fallbacks. -/
def findOidfUrl (specId : String) : Option String :=
  match oidfUrlGet specId with
  | some u => some u
  | none =>
    let v1 : String := ⟨specId.toList.map fun c => if c = '-' then ' ' else c⟩
    let v2 : String := ⟨wsRunsTo '-' specId.toList.length specId.toList⟩
    match [specId, v1, v2].firstM oidfUrlGet with
    | some u => some u
    | none =>
      if containsCI "OpenID4VP" specId then oidfUrlGet "OpenID4VP"
      else if containsCI "OpenID4VCI" specId then oidfUrlGet "OpenID4VCI"
      else if containsCI "OpenID4VC-HAIP" specId || containsCI "HAIP" specId then
        oidfUrlGet "OpenID4VC-HAIP"
      else if testAnywhere (seqGapAt ["OpenID".toList, "Connect".toList, "Core".toList]) specId then
        oidfUrlGet "OpenID Connect Core"
      else if testAnywhere (seqGapAt ["OpenID".toList, "Connect".toList, "Discovery".toList]) specId then
        oidfUrlGet "OpenID Connect Discovery"
      else if testAnywhere (seqGapAt ["OpenID".toList, "Connect".toList]) specId then
        oidfUrlGet "OpenID Connect"
      else if testAnywhere (seqGapAt ["OpenID".toList, "Federation".toList]) specId then
        oidfUrlGet "OpenID Federation"
      else if testAnywhere (seqGapAt ["SD-JWT".toList, "VC".toList]) specId then
        oidfUrlGet "SD-JWT VC"
      else if containsCI "SD-JWT" specId then oidfUrlGet "SD-JWT"
      else none

/-- Anchored core of the `/RFC\s*(\d+)/i` test of `findMissingSpecs`. -/
def rfcNumAt (s : Chars) : Option Chars := do
  let r1 ← litCI "RFC".toList s
  let (d, _) := spanDigits (skipWs r1)
  if d.isEmpty then none else pure d

/-- Leftmost `/RFC\s*(\d+)/i` capture of a node identifier. -/
def rfcNumOf (id : String) : Option Chars :=
  searchOpt rfcNumAt id.toList.length id.toList

/-- A frontier item of either acquisition class. -/
structure MissingItem where
  id : String
  target : String
  deriving Repr, DecidableEq

/-- The frontier of one iteration (`missing = { oidf: [], ietf: [] }`). -/
structure Missing where
  oidf : List MissingItem
  ietf : List MissingItem
  deriving Repr, DecidableEq

/-- The per-node body of the `findMissingSpecs` loop. -/
def missingStep (acc : Missing) (kn : String × GNode) : Missing :=
  let n := kn.2
  let acc :=
    if n.source = "oidf" && n.path.isNone then
      match findOidfUrl n.id with
      | some u => { acc with oidf := acc.oidf ++ [⟨n.id, u⟩] }
      | none => acc
    else acc
  if n.source = "ietf" && n.path.isNone then
    match rfcNumOf n.id with
    | some d => { acc with ietf := acc.ietf ++ [⟨n.id, natRepr (digitsToNat d)⟩] }
    | none => acc
  else acc

/-- `findMissingSpecs(graph)`: un-acquired `oidf` nodes with a resolvable URL
and un-acquired `ietf` nodes whose identifier parses as an RFC number (the
number is reprinted with leading zeros stripped:
`String(parseInt(rfcMatch[1], 10))`). -/
def findMissingSpecs (g : RefGraph) : Missing :=
  g.nodes.foldl missingStep ⟨[], []⟩

/-- Is the computed frontier empty
(`missingSpecs.oidf.length === 0 && missingSpecs.ietf.length === 0`)? -/
def frontierEmpty (m : Missing) : Bool :=
  m.oidf.isEmpty && m.ietf.isEmpty

/-- The `while (newSpecsFound && depth < MAX_DEPTH)` loop of `main`, reduced to
what determines the iteration count: each iteration increments `depth`,
recomputes the frontier, and terminates the loop when the frontier is empty.
`frontierEmptyAt i` abstracts the frontier check of iteration `i` (extraction
is deterministic, so it is a function of the corpus at that iteration).
Returns the number of executed iterations. -/
def crawlGo (maxDepth : Nat) (frontierEmptyAt : Nat → Bool) : Nat → Nat → Nat
  | 0, depth => depth
  | fuel + 1, depth =>
    if depth < maxDepth then
      if frontierEmptyAt (depth + 1) then depth + 1
      else crawlGo maxDepth frontierEmptyAt fuel (depth + 1)
    else depth

/-- Number of crawl iterations executed by `main` for a given depth bound. -/
def crawlIterations (maxDepth : Nat) (frontierEmptyAt : Nat → Bool) : Nat :=
  crawlGo maxDepth frontierEmptyAt maxDepth 0

/-!
## The request-for-comments acquisition pass (`downloadIetfRfcs`)
-/

/-- Outcome of one fetch attempt.  An expired per-attempt timeout
(`AbortController` + 15000 ms) rejects the fetch and is caught by the same
`catch` as an HTTP error, so both are failures. -/
inductive FetchOutcome
  | ok
  | httpError
  | timeout
  deriving Repr, DecidableEq

/-- The bounded per-attempt timeout (`setTimeout(() => controller.abort(), 15000)`). -/
def ATTEMPT_TIMEOUT_MS : Nat := 15000

/-- One frontier item together with its environment: whether its file already
exists locally and the outcome of each numbered fetch attempt. -/
structure RfcJob where
  number : String
  present : Bool
  outcome : Nat → FetchOutcome

/-- Trace of the retry loop for one item: the attempts made, whether one
succeeded, and the backoff delays slept between successive attempts. -/
structure ItemRun where
  attempts : List Nat
  success : Bool
  backoffs : List Nat
  deriving Repr, DecidableEq

/-- The `for (let attempt = 1; attempt <= 3 && !success; attempt++)` retry
loop: a failed attempt below the budget sleeps `1000 * attempt` before the
next attempt. -/
def rfcTry (outcome : Nat → FetchOutcome) : Nat → Nat → ItemRun
  | 0, _ => ⟨[], false, []⟩
  | fuel + 1, attempt =>
    if attempt > 3 then ⟨[], false, []⟩
    else if outcome attempt = .ok then ⟨[attempt], true, []⟩
    else
      let r := rfcTry outcome fuel (attempt + 1)
      ⟨attempt :: r.attempts, r.success, (if attempt < 3 then [1000 * attempt] else []) ++ r.backoffs⟩

/-- The retry loop for one item, starting at attempt 1. -/
def runRfcItem (outcome : Nat → FetchOutcome) : ItemRun :=
  rfcTry outcome 3 1

/-- Fate of one frontier item in the pass. -/
inductive ItemStatus
  | skippedExists
  | ran (r : ItemRun)
  | notAttempted
  deriving Repr, DecidableEq

/-- The `downloadIetfRfcs(rfcs)` loop: skip items already present, run the
retry loop for the others, count exhausted items in `failCount`, and break out
of the whole pass when `failCount > 10` after finishing an item. -/
def runIetfPass : List RfcJob → Nat → List (String × ItemStatus) × Nat
  | [], fc => ([], fc)
  | job :: rest, fc =>
    if job.present then
      let (t, fc2) := runIetfPass rest fc
      ((job.number, .skippedExists) :: t, fc2)
    else
      let r := runRfcItem job.outcome
      let fc2 := if r.success then fc else fc + 1
      if fc2 > 10 then
        ((job.number, .ran r) :: rest.map fun j => (j.number, ItemStatus.notAttempted), fc2)
      else
        let (t, fc3) := runIetfPass rest fc2
        ((job.number, .ran r) :: t, fc3)

/-- One acquisition pass over the request-for-comments frontier. -/
def downloadIetfRfcs (jobs : List RfcJob) : List (String × ItemStatus) :=
  (runIetfPass jobs 0).1

/-!
## Lemmas about the retry loop and the acquisition pass
-/

/-- The fully failed retry trace: three attempts, both backoff sleeps. -/
def failedRun : ItemRun := ⟨[1, 2, 3], false, [1000, 2000]⟩

/-- Closed form of the retry loop as a decision tree over the attempt outcomes. -/
theorem runRfcItem_eq (outcome : Nat → FetchOutcome) :
    runRfcItem outcome =
      if outcome 1 = .ok then ⟨[1], true, []⟩
      else if outcome 2 = .ok then ⟨[1, 2], true, [1000]⟩
      else if outcome 3 = .ok then ⟨[1, 2, 3], true, [1000, 2000]⟩
      else failedRun := by
  simp only [runRfcItem, rfcTry, failedRun]
  norm_num
  split_ifs <;> rfl

/-- A fully failing item produces the failed trace. -/
theorem runRfcItem_all_fail (outcome : Nat → FetchOutcome)
    (h : ∀ k, outcome k ≠ .ok) : runRfcItem outcome = failedRun := by
  rw [runRfcItem_eq, if_neg (h 1), if_neg (h 2), if_neg (h 3)]

/-- A list of jobs that are absent locally and fail every fetch attempt. -/
def failingJobs (n : Nat) : List RfcJob :=
  (List.range n).map fun i => ⟨natRepr (i + 1), false, fun _ => .httpError⟩

/-- Every `failingJobs` entry is absent and never succeeds. -/
theorem failingJobs_spec (n : Nat) :
    ∀ j ∈ failingJobs n, j.present = false ∧ ∀ k, j.outcome k ≠ .ok := by
  intro j hj
  obtain ⟨i, _, rfl⟩ := List.mem_map.1 hj
  exact ⟨rfl, fun _ h => nomatch h⟩

/-- Shape of the pass over all-failing items, for any starting failure count
`fc ≤ 10`: the next `11 - fc` items are each run once (with the full retry
budget), everything after is abandoned by the circuit breaker. -/
theorem runIetfPass_all_fail (jobs : List RfcJob)
    (h : ∀ j ∈ jobs, j.present = false ∧ ∀ k, j.outcome k ≠ .ok) :
    ∀ fc, fc ≤ 10 →
      (runIetfPass jobs fc).1.map Prod.snd
        = List.replicate (min jobs.length (11 - fc)) (.ran failedRun)
          ++ List.replicate (jobs.length - (11 - fc)) .notAttempted := by
  induction jobs with
  | nil => intro fc _; simp [runIetfPass]
  | cons job rest ih =>
    intro fc hfc
    obtain ⟨hpres, hfail⟩ := h job (List.mem_cons_self _ _)
    have hrest : ∀ j ∈ rest, j.present = false ∧ ∀ k, j.outcome k ≠ .ok :=
      fun j hj => h j (List.mem_cons_of_mem _ hj)
    have hrun : runRfcItem job.outcome = failedRun := runRfcItem_all_fail _ hfail
    simp only [runIetfPass, hpres, Bool.false_eq_true, if_false, hrun]
    have hsucc : (failedRun.success = true) = False := by simp [failedRun]
    simp only [hsucc, if_false]
    by_cases hbrk : fc + 1 > 10
    · have hfc10 : fc = 10 := by omega
      subst hfc10
      simp only [if_pos hbrk, List.map_cons, List.map_map]
      have h11 : (11 : Nat) - 10 = 1 := by norm_num
      rw [h11]
      simp only [List.replicate, min_eq_right (by omega : (1 : Nat) ≤ rest.length + 1),
        List.length_cons, List.cons_append, List.nil_append, List.cons.injEq, true_and]
      rw [show (Prod.snd ∘ fun (j : RfcJob) => (j.number, ItemStatus.notAttempted))
          = fun _ => ItemStatus.notAttempted from rfl, List.map_const']
      congr 1
    · simp only [if_neg hbrk]
      have hrec := ih hrest (fc + 1) (by omega)
      simp only [List.map_cons]
      rw [hrec]
      have hmin : min (rest.length + 1) (11 - fc) = (min rest.length (11 - (fc + 1))) + 1 := by
        omega
      have hsub : rest.length + 1 - (11 - fc) = rest.length - (11 - (fc + 1)) := by
        omega
      simp only [List.length_cons, hmin, hsub, List.replicate_succ, List.cons_append]

/-- C3 (corrected): with eleven consecutive failing items, the pass runs items
1 through 11 — the eleventh item IS attempted, because the breaker check
`failCount > 10` only fires after the item whose failure makes the count 11. -/
theorem c3_counterexample :
    (downloadIetfRfcs (failingJobs 11)).map Prod.snd
        = List.replicate 11 (ItemStatus.ran failedRun) ∧
      ItemStatus.ran failedRun ≠ ItemStatus.notAttempted := by
  constructor
  · have := runIetfPass_all_fail (failingJobs 11) (failingJobs_spec 11) 0 (by norm_num)
    simpa [downloadIetfRfcs, failingJobs] using this
  · intro h
    exact nomatch h

/-- C3 (amended): in one request-for-comments acquisition pass over
consecutively failing items, items 1 through 11 are each attempted exactly
once (each consuming its own three-attempt retry budget), and the twelfth and
later items are never attempted: the circuit breaker trips once the failure
count exceeds ten, which happens after the eleventh failure. -/
theorem c3_breaker (jobs : List RfcJob)
    (h : ∀ j ∈ jobs, j.present = false ∧ ∀ k, j.outcome k ≠ .ok) :
    (downloadIetfRfcs jobs).map Prod.snd
      = List.replicate (min jobs.length 11) (.ran failedRun)
        ++ List.replicate (jobs.length - 11) .notAttempted := by
  simpa [downloadIetfRfcs] using runIetfPass_all_fail jobs h 0 (by norm_num)

/-- Witness for the amended circuit-breaker statement: twelve failing items
give eleven runs and one abandoned item. -/
theorem c3_breaker_witness :
    (downloadIetfRfcs (failingJobs 12)).map Prod.snd
      = List.replicate 11 (ItemStatus.ran failedRun)
        ++ List.replicate 1 ItemStatus.notAttempted := by
  have := c3_breaker (failingJobs 12) (failingJobs_spec 12)
  simpa [failingJobs] using this

/-- C8 (confirmed): per request-for-comments frontier item, at most three
attempts are made; between successive attempts the pass sleeps an
exponentially doubling backoff (`1000 * 2 ^ (a - 2)` milliseconds before
attempt `a`, i.e. `1000 * attempt` in the loop, which doubles across the two
possible backoffs); only the success/failure of each attempt matters, so an
expired per-attempt timeout counts exactly like any other failed attempt; an
item whose three attempts all failed is left unsuccessful (its file is never
written, so it stays absent and re-enters a later frontier), and as long as
the circuit breaker has not tripped the pass continues with the next item. -/
theorem c8_retry_policy (outcome oc2 : Nat → FetchOutcome)
    (hsame : ∀ k, (outcome k = .ok) ↔ (oc2 k = .ok))
    (job : RfcJob) (rest : List RfcJob) (fc : Nat)
    (hjob : job.present = false) (hfail : ∀ k, job.outcome k ≠ .ok)
    (hfc : fc + 1 ≤ 10) :
    (runRfcItem outcome).attempts.length ≤ 3 ∧
    (runRfcItem outcome).backoffs
      = (runRfcItem outcome).attempts.tail.map (fun a => 1000 * 2 ^ (a - 2)) ∧
    runRfcItem outcome = runRfcItem oc2 ∧
    (runRfcItem job.outcome).success = false ∧
    (runIetfPass (job :: rest) fc).1
      = (job.number, .ran (runRfcItem job.outcome)) :: (runIetfPass rest (fc + 1)).1 := by
  refine ⟨?_, ?_, ?_, ?_, ?_⟩
  · rw [runRfcItem_eq outcome]
    split_ifs <;> decide
  · rw [runRfcItem_eq outcome]
    split_ifs <;> decide
  · have e1 : (outcome 1 = .ok) = (oc2 1 = .ok) := propext (hsame 1)
    have e2 : (outcome 2 = .ok) = (oc2 2 = .ok) := propext (hsame 2)
    have e3 : (outcome 3 = .ok) = (oc2 3 = .ok) := propext (hsame 3)
    rw [runRfcItem_eq outcome, runRfcItem_eq oc2]
    simp only [e1, e2, e3]
  · rw [runRfcItem_all_fail _ hfail]
    rfl
  · have hrun : runRfcItem job.outcome = failedRun := runRfcItem_all_fail _ hfail
    simp only [runIetfPass, hjob, Bool.false_eq_true, if_false, hrun]
    have hsucc : (failedRun.success = true) = False := by simp [failedRun]
    simp only [hsucc, if_false]
    have hbrk : ¬ (fc + 1 > 10) := by omega
    simp only [if_neg hbrk, hrun]

/-- An item whose first attempt times out and whose later attempts hit HTTP
errors. -/
def ocTimeoutFail : Nat → FetchOutcome :=
  fun k => if k = 1 then .timeout else .httpError

/-- An item failing every attempt with HTTP errors. -/
def ocHttpFail : Nat → FetchOutcome := fun _ => .httpError

/-- Witness for the retry policy: a timing-out item behaves exactly like an
HTTP-failing item, ends unsuccessful after its three attempts, and the pass
moves on to the next item. -/
theorem c8_retry_policy_witness :
    runRfcItem ocTimeoutFail = runRfcItem ocHttpFail ∧
    (runRfcItem ocTimeoutFail).success = false ∧
    (runIetfPass [⟨"793", false, ocTimeoutFail⟩, ⟨"9449", false, fun _ => .ok⟩] 0).1
      = ("793", .ran (runRfcItem ocTimeoutFail))
        :: (runIetfPass [⟨"9449", false, fun _ => .ok⟩] 1).1 := by
  have hfail : ∀ k, ocTimeoutFail k ≠ FetchOutcome.ok := by
    intro k hk
    unfold ocTimeoutFail at hk
    split at hk <;> exact nomatch hk
  have hiff : ∀ k, (ocTimeoutFail k = FetchOutcome.ok) ↔ (ocHttpFail k = FetchOutcome.ok) := by
    intro k
    exact iff_of_false (hfail k) (fun hk => nomatch hk)
  have h := c8_retry_policy ocTimeoutFail ocHttpFail hiff
    ⟨"793", false, ocTimeoutFail⟩ [⟨"9449", false, fun _ => .ok⟩] 0 rfl hfail (by norm_num)
  exact ⟨h.2.2.1, h.2.2.2.1, h.2.2.2.2⟩

/-- C4 (code bug): a document with no structured references sections whose
body mentions a request-for-comments identifier.  The fallback whole-document
scan — despite the source comment "search whole document for ETSI only" —
copies every domain of `extractAllRefs` into the `all` accumulators, so the
external (`ietf`) identifier IS emitted by the fallback while no structured
classification exists. -/
theorem c4_fallback_emits_external :
    (extractRefsCore none none "See RFC 793 for details.").normative = DomainSets.empty ∧
    (extractRefsCore none none "See RFC 793 for details.").informative = DomainSets.empty ∧
    (extractRefsCore none none "See RFC 793 for details.").all.etsi = [] ∧
    (extractRefsCore none none "See RFC 793 for details.").all.ietf = ["RFC 793"] := by
  refine ⟨rfl, rfl, rfl, rfl⟩

/-- C6 (corrected, counterexample): the pattern matcher emits the captured
digits verbatim, so `RFC 0793` and `RFC 793` yield different canonical
identifiers — the claimed leading-zero stripping does not happen at
extraction time. -/
theorem c6_counterexample :
    (extractAllRefs "RFC 0793").ietf = ["RFC 0793"] ∧
    (extractAllRefs "RFC 793").ietf = ["RFC 793"] ∧
    ("RFC 0793" : String) ≠ "RFC 793" := by
  refine ⟨rfl, rfl, by decide⟩

/-- C6 (amended): the emitted canonical identifier is `RFC ` followed by the
captured digits verbatim (leading zeros preserved), so the two spellings
produce two distinct graph nodes; leading zeros are stripped only later, when
`findMissingSpecs` computes the numeric download target
(`String(parseInt(rfcMatch[1], 10))` gives `793` for both nodes). -/
theorem c6_rfc_identifier :
    (extractAllRefs "RFC 0793 cites RFC 793").ietf = ["RFC 0793", "RFC 793"] ∧
    (nget (assembleGraph
        [⟨"p.pdf", "en_319403v010101p.pdf",
          extractRefsCore (some "RFC 0793 cites RFC 793") none ""⟩] []).nodes
      "RFC 0793").isSome = true ∧
    (nget (assembleGraph
        [⟨"p.pdf", "en_319403v010101p.pdf",
          extractRefsCore (some "RFC 0793 cites RFC 793") none ""⟩] []).nodes
      "RFC 793").isSome = true ∧
    (findMissingSpecs (assembleGraph
        [⟨"p.pdf", "en_319403v010101p.pdf",
          extractRefsCore (some "RFC 0793 cites RFC 793") none ""⟩] [])).ietf.map
      MissingItem.target = ["793", "793"] := by
  refine ⟨rfl, by decide, by decide, by decide⟩

/-!
## Association-list lemmas for the node map
-/

theorem nget_nset_self (m : List (String × GNode)) (k : String) (v : GNode) :
    nget (nset m k v) k = some v := by
  induction m with
  | nil => simp [nset, nget]
  | cons p rest ih =>
    obtain ⟨pk, pv⟩ := p
    by_cases h : pk = k
    · simp [nset, nget, h]
    · simp [nset, nget, h, ih]

theorem nget_nset_ne (m : List (String × GNode)) (k : String) (v : GNode)
    (j : String) (h : j ≠ k) : nget (nset m k v) j = nget m j := by
  have hkj : ¬ (k = j) := fun hh => h hh.symm
  induction m with
  | nil => simp [nset, nget, hkj]
  | cons p rest ih =>
    obtain ⟨pk, pv⟩ := p
    by_cases hp : pk = k
    · subst hp
      simp [nset, nget, hkj]
    · by_cases hj : pk = j <;> simp [nset, nget, hp, hj, ih, hkj, h]

theorem nget_nmod_self (m : List (String × GNode)) (k : String) (f : GNode → GNode) :
    nget (nmod m k f) k = (nget m k).map f := by
  induction m with
  | nil => simp [nmod, nget]
  | cons p rest ih =>
    obtain ⟨pk, pv⟩ := p
    by_cases h : pk = k
    · simp [nmod, nget, h]
    · simp [nmod, nget, h, ih]

theorem nget_nmod_ne (m : List (String × GNode)) (k : String) (f : GNode → GNode)
    (j : String) (h : j ≠ k) : nget (nmod m k f) j = nget m j := by
  have hkj : ¬ (k = j) := fun hh => h hh.symm
  induction m with
  | nil => simp [nmod, nget]
  | cons p rest ih =>
    obtain ⟨pk, pv⟩ := p
    by_cases hp : pk = k
    · subst hp
      simp [nmod, nget, hkj]
    · by_cases hj : pk = j <;> simp [nmod, nget, hp, hj, ih, hkj, h]

theorem forall_nodes_nset {Q : String × GNode → Prop} {m : List (String × GNode)}
    {k : String} {v : GNode} (h : ∀ p ∈ m, Q p) (hv : Q (k, v)) :
    ∀ p ∈ nset m k v, Q p := by
  induction m with
  | nil =>
    intro p hp
    rw [List.mem_singleton.1 hp]
    exact hv
  | cons q rest ih =>
    obtain ⟨qk, qv⟩ := q
    intro p hp
    have hq : ∀ x ∈ rest, Q x := fun x hx => h x (List.mem_cons_of_mem _ hx)
    by_cases hk : qk = k
    · simp only [nset, if_pos hk] at hp
      rcases List.mem_cons.1 hp with hp | hp
      · rw [hp]; exact hv
      · exact h p (List.mem_cons_of_mem _ hp)
    · simp only [nset, if_neg hk] at hp
      rcases List.mem_cons.1 hp with hp | hp
      · rw [hp]; exact h (qk, qv) (List.mem_cons_self _ _)
      · exact ih hq p hp

theorem forall_nodes_nmod {Q : String × GNode → Prop} {m : List (String × GNode)}
    {k : String} {f : GNode → GNode} (h : ∀ p ∈ m, Q p)
    (hf : ∀ j n, Q (j, n) → Q (j, f n)) : ∀ p ∈ nmod m k f, Q p := by
  induction m with
  | nil => simp [nmod]
  | cons q rest ih =>
    obtain ⟨qk, qv⟩ := q
    intro p hp
    have hq : ∀ x ∈ rest, Q x := fun x hx => h x (List.mem_cons_of_mem _ hx)
    by_cases hk : qk = k
    · simp only [nmod, if_pos hk] at hp
      rcases List.mem_cons.1 hp with hp | hp
      · rw [hp]; exact hf _ _ (h (qk, qv) (List.mem_cons_self _ _))
      · exact h p (List.mem_cons_of_mem _ hp)
    · simp only [nmod, if_neg hk] at hp
      rcases List.mem_cons.1 hp with hp | hp
      · rw [hp]; exact h (qk, qv) (List.mem_cons_self _ _)
      · exact ih hq p hp

/-- Preservation of a graph property along a `foldl` of per-reference updates. -/
theorem foldl_pres {β : Type} {P : RefGraph → Prop} {f : RefGraph → β → RefGraph}
    (h : ∀ g b, P g → P (f g b)) :
    ∀ (l : List β) (g : RefGraph), P g → P (l.foldl f g) := by
  intro l
  induction l with
  | nil => intro g hg; simpa using hg
  | cons b rest ih => intro g hg; exact ih _ (h g b hg)

/-!
## C10: every node and edge source lies in the six domains
-/

/-- The six source/domain tags of the assembled graph. -/
def sourceDomains : List String := ["etsi", "ietf", "iso", "itu", "w3c", "oidf"]

/-- All node and edge source tags of a graph lie in the six domains. -/
def SixSources (g : RefGraph) : Prop :=
  (∀ p ∈ g.nodes, p.2.source ∈ sourceDomains) ∧
  (∀ e ∈ g.edges, e.esource ∈ sourceDomains)

theorem sixSources_pushEdge {g : RefGraph} {e : GEdge} (h : SixSources g)
    (he : e.esource ∈ sourceDomains) : SixSources (pushEdge g e) := by
  refine ⟨h.1, ?_⟩
  intro x hx
  simp only [pushEdge] at hx
  rcases List.mem_append.1 hx with hx | hx
  · exact h.2 x hx
  · rw [List.mem_singleton.1 hx]
    exact he

theorem sixSources_ensureNode {g : RefGraph} {id src : String} (h : SixSources g)
    (hs : src ∈ sourceDomains) : SixSources (ensureNode g id src) := by
  unfold ensureNode
  split
  · exact h
  · constructor
    · exact forall_nodes_nset h.1 hs
    · exact h.2

theorem sixSources_ensureExternalNode {g : RefGraph} {id src : String} (h : SixSources g)
    (hs : src ∈ sourceDomains) : SixSources (ensureExternalNode g id src) := by
  unfold ensureExternalNode
  split
  · exact h
  · constructor
    · exact forall_nodes_nset h.1 hs
    · exact h.2

theorem sixSources_bumpInbound {g : RefGraph} {id : String} (h : SixSources g) :
    SixSources (bumpInbound g id) := by
  constructor
  · exact forall_nodes_nmod h.1 fun j n hn => hn
  · exact h.2

theorem sixSources_setRefsCount {g : RefGraph} {id : String} {n : Nat} (h : SixSources g) :
    SixSources (setRefsCount g id n) := by
  constructor
  · exact forall_nodes_nmod h.1 fun j nd hn => hn
  · exact h.2

theorem sixSources_addEtsiRef {docId ety : String} {g : RefGraph} {ref : String}
    (h : SixSources g) : SixSources (addEtsiRef docId ety g ref) := by
  unfold addEtsiRef
  split
  · exact h
  · split
    · exact h
    · exact sixSources_bumpInbound (sixSources_ensureNode
        (sixSources_pushEdge h (show ("etsi" : String) ∈ sourceDomains by decide))
        (show ("etsi" : String) ∈ sourceDomains by decide))

theorem sixSources_addExtRef {docId ety ext : String} {g : RefGraph} {ref : String}
    (h : SixSources g) (hs : ext ∈ sourceDomains) :
    SixSources (addExtRef docId ety ext g ref) := by
  exact sixSources_bumpInbound (sixSources_ensureExternalNode
    (sixSources_pushEdge h hs) hs)

theorem sixSources_addExternal {docId : String} {refs : ExtractResult} {g : RefGraph}
    (h : SixSources g) : SixSources (addExternal docId refs g) := by
  unfold addExternal
  refine foldl_pres (fun g r hg => sixSources_addExtRef hg (by decide)) _ _
    (foldl_pres (fun g r hg => sixSources_addExtRef hg (by decide)) _ _ ?_)
  refine foldl_pres (fun g r hg => sixSources_addExtRef hg (by decide)) _ _
    (foldl_pres (fun g r hg => sixSources_addExtRef hg (by decide)) _ _ ?_)
  refine foldl_pres (fun g r hg => sixSources_addExtRef hg (by decide)) _ _
    (foldl_pres (fun g r hg => sixSources_addExtRef hg (by decide)) _ _ ?_)
  refine foldl_pres (fun g r hg => sixSources_addExtRef hg (by decide)) _ _
    (foldl_pres (fun g r hg => sixSources_addExtRef hg (by decide)) _ _ ?_)
  exact foldl_pres (fun g r hg => sixSources_addExtRef hg (by decide)) _ _
    (foldl_pres (fun g r hg => sixSources_addExtRef hg (by decide)) _ _ h)

theorem sixSources_processPdfDoc {g : RefGraph} {doc : PdfDoc} (h : SixSources g) :
    SixSources (processPdfDoc g doc) := by
  unfold processPdfDoc
  split
  · exact h
  · refine sixSources_addExternal ?_
    refine foldl_pres (fun g r hg => sixSources_addEtsiRef hg) _ _ ?_
    refine foldl_pres (fun g r hg => sixSources_addEtsiRef hg) _ _ ?_
    refine sixSources_setRefsCount ?_
    split
    · exact h
    · constructor
      · exact forall_nodes_nset h.1 (show ("etsi" : String) ∈ sourceDomains by decide)
      · exact h.2

theorem sixSources_processDocxDoc {g : RefGraph} {doc : DocxDoc} (h : SixSources g) :
    SixSources (processDocxDoc g doc) := by
  unfold processDocxDoc
  split
  · exact h
  · refine sixSources_addExternal ?_
    refine foldl_pres (fun g r hg => sixSources_addEtsiRef hg) _ _ ?_
    refine foldl_pres (fun g r hg => sixSources_addEtsiRef hg) _ _ ?_
    refine sixSources_setRefsCount ?_
    split
    · constructor
      · refine forall_nodes_nmod h.1 ?_
        intro j n hn
        show (mergeDraftNode _ n).source ∈ sourceDomains
        unfold mergeDraftNode
        dsimp only
        split <;> exact hn
      · exact h.2
    · constructor
      · exact forall_nodes_nset h.1 (show ("etsi" : String) ∈ sourceDomains by decide)
      · exact h.2

theorem sixSources_assembleGraph (pdfs : List PdfDoc) (docxs : List DocxDoc) :
    SixSources (assembleGraph pdfs docxs) := by
  unfold assembleGraph
  refine foldl_pres (fun g d hg => sixSources_processDocxDoc hg) _ _ ?_
  refine foldl_pres (fun g d hg => sixSources_processPdfDoc hg) _ _ ?_
  exact ⟨by simp [RefGraph.empty], by simp [RefGraph.empty]⟩

/-- C10 (confirmed): every node and edge of any assembled graph carries a
source tag from the six domains; the per-document accumulators have no `cen`
key, so the merge passes are insensitive to the `cen` component of the raw
match sets; and `extractAllRefs` in fact leaves its `cen` set empty (the
`REF_PATTERNS.cen` recognizer is declared but no extraction loop applies it),
so no `cen`-matched identifier ever reaches the graph. -/
theorem c10_six_domain_invariant (pdfs : List PdfDoc) (docxs : List DocxDoc) :
    (∀ p ∈ (assembleGraph pdfs docxs).nodes, p.2.source ∈ sourceDomains) ∧
    (∀ e ∈ (assembleGraph pdfs docxs).edges, e.esource ∈ sourceDomains) ∧
    (∀ text, (extractAllRefs text).cen = []) ∧
    (∀ r1 r2 : RawRefs, ∀ norm inf all : DomainSets,
      r1.etsi = r2.etsi → r1.ietf = r2.ietf → r1.iso = r2.iso → r1.itu = r2.itu →
      r1.w3c = r2.w3c → r1.oidf = r2.oidf →
      transferNorm r1 norm all = transferNorm r2 norm all ∧
      transferInf r1 norm inf all = transferInf r2 norm inf all ∧
      transferAll r1 all = transferAll r2 all) := by
  refine ⟨(sixSources_assembleGraph pdfs docxs).1, (sixSources_assembleGraph pdfs docxs).2,
    fun _ => rfl, ?_⟩
  intro r1 r2 norm inf all h1 h2 h3 h4 h5 h6
  exact ⟨by simp [transferNorm, h1, h2, h3, h4, h5, h6],
    by simp [transferInf, h1, h2, h3, h4, h5, h6],
    by simp [transferAll, h1, h2, h3, h4, h5, h6]⟩

/-- Witness for the six-domain invariant at a concrete corpus: the node and
edge created for an external citation carry the `ietf` tag, and a raw match
set differing only in `cen` merges identically. -/
theorem c10_six_domain_witness :
    (("RFC 793", (⟨"RFC 793", "RFC", "ietf", none, 0, 1, false⟩ : GNode)) :
        String × GNode).2.source ∈ sourceDomains ∧
    transferAll ⟨[], [], [], [], [], [], ["CEN 17931"]⟩ DomainSets.empty
      = transferAll ⟨[], [], [], [], [], [], []⟩ DomainSets.empty := by
  constructor
  · have h := (c10_six_domain_invariant
      [⟨"p.pdf", "en_319403v010101p.pdf", extractRefsCore (some "RFC 793") none ""⟩] []).1
    exact h ("RFC 793", ⟨"RFC 793", "RFC", "ietf", none, 0, 1, false⟩) (by decide)
  · exact ((c10_six_domain_invariant [] []).2.2.2
      ⟨[], [], [], [], [], [], ["CEN 17931"]⟩ ⟨[], [], [], [], [], [], []⟩
      DomainSets.empty DomainSets.empty DomainSets.empty
      rfl rfl rfl rfl rfl rfl).2.2

/-!
## C1: connectivity counts versus the edge list
-/

/-- Number of edges whose target is `id`. -/
def countTo : List GEdge → String → Nat
  | [], _ => 0
  | e :: es, id => (if e.eto = id then 1 else 0) + countTo es id

/-- Number of edges whose source is `id`. -/
def countFrom : List GEdge → String → Nat
  | [], _ => 0
  | e :: es, id => (if e.efrom = id then 1 else 0) + countFrom es id

/-- The stored inbound count of `id` (0 when the node does not exist). -/
def inboundOf (g : RefGraph) (id : String) : Nat :=
  match nget g.nodes id with
  | some n => n.referencedByCount
  | none => 0

/-- Invariant: every stored inbound count equals the number of edges targeting
that node, and absent nodes are targeted by no edge. -/
def InvCount (g : RefGraph) : Prop :=
  ∀ id, inboundOf g id = countTo g.edges id

theorem countTo_append (es : List GEdge) (e : GEdge) (id : String) :
    countTo (es ++ [e]) id = countTo es id + (if e.eto = id then 1 else 0) := by
  induction es with
  | nil => simp [countTo]
  | cons x rest ih => simp [countTo, ih]; omega

/-- `ensureExternalNode` has the same body as `ensureNode`. -/
theorem ensureExternalNode_eq_ensureNode :
    ensureExternalNode = ensureNode := rfl

theorem invCount_nmod_frame {g : RefGraph} {k : String} {f : GNode → GNode}
    (hf : ∀ n, (f n).referencedByCount = n.referencedByCount) (h : InvCount g) :
    InvCount { g with nodes := nmod g.nodes k f } := by
  intro id
  by_cases hid : id = k
  · subst hid
    have hg := h id
    unfold inboundOf at hg ⊢
    dsimp only
    rw [nget_nmod_self]
    cases hn : nget g.nodes id with
    | none => rw [hn] at hg; simpa using hg
    | some n =>
      rw [hn] at hg
      simpa [hf] using hg
  · have hg := h id
    unfold inboundOf at hg ⊢
    dsimp only
    rw [nget_nmod_ne _ _ _ _ hid]
    exact hg

theorem invCount_create_absent {g : RefGraph} {k : String} {v : GNode}
    (hv : v.referencedByCount = 0) (habs : nhas g.nodes k = false) (h : InvCount g) :
    InvCount { g with nodes := nset g.nodes k v } := by
  intro id
  by_cases hid : id = k
  · subst hid
    have hg := h id
    unfold inboundOf at hg ⊢
    dsimp only
    rw [nget_nset_self]
    unfold nhas at habs
    cases hn : nget g.nodes id with
    | none => rw [hn] at hg; simpa [hv] using hg
    | some n => rw [hn] at habs; exact absurd habs (by simp)
  · have hg := h id
    unfold inboundOf at hg ⊢
    dsimp only
    rw [nget_nset_ne _ _ _ _ hid]
    exact hg

/-- The composite edge-insertion step preserves the inbound invariant:
push the edge, ensure its target node, bump the target's inbound count. -/
theorem invCount_addTarget {g : RefGraph} (e : GEdge) (src : String)
    (h : InvCount g) :
    InvCount (bumpInbound (ensureNode (pushEdge g e) e.eto src) e.eto) := by
  intro id
  have hg := h id
  unfold inboundOf at hg ⊢
  unfold bumpInbound ensureNode pushEdge nhas
  dsimp only
  cases hm : nget g.nodes e.eto with
  | some n =>
    simp only [hm, Option.isSome_some, if_true]
    by_cases hid : id = e.eto
    · rw [hid] at hg ⊢
      rw [hm] at hg
      rw [nget_nmod_self, hm]
      rw [countTo_append]
      simp only [Option.map_some', if_true]
      dsimp only at hg ⊢
      omega
    · rw [nget_nmod_ne _ _ _ _ hid]
      rw [countTo_append]
      have hne : ¬ (e.eto = id) := fun hh => hid hh.symm
      simp [hne, hg]
  | none =>
    simp only [hm, Option.isSome_none, Bool.false_eq_true, if_false]
    by_cases hid : id = e.eto
    · rw [hid] at hg ⊢
      rw [hm] at hg
      rw [nget_nmod_self, nget_nset_self]
      rw [countTo_append]
      simp [← hg]
    · rw [nget_nmod_ne _ _ _ _ hid, nget_nset_ne _ _ _ _ hid]
      rw [countTo_append]
      have hne : ¬ (e.eto = id) := fun hh => hid hh.symm
      simp [hne, hg]

theorem invCount_addEtsiRef {docId ety : String} {g : RefGraph} {ref : String}
    (h : InvCount g) : InvCount (addEtsiRef docId ety g ref) := by
  unfold addEtsiRef
  split
  · exact h
  · split
    · exact h
    · exact invCount_addTarget _ _ h

theorem invCount_addExtRef {docId ety ext : String} {g : RefGraph} {ref : String}
    (h : InvCount g) : InvCount (addExtRef docId ety ext g ref) := by
  unfold addExtRef
  rw [ensureExternalNode_eq_ensureNode]
  exact invCount_addTarget _ _ h

theorem invCount_setRefsCount {g : RefGraph} {id : String} {n : Nat}
    (h : InvCount g) : InvCount (setRefsCount g id n) := by
  unfold setRefsCount
  exact invCount_nmod_frame (fun nd => rfl) h

theorem invCount_addExternal {docId : String} {refs : ExtractResult} {g : RefGraph}
    (h : InvCount g) : InvCount (addExternal docId refs g) := by
  unfold addExternal
  refine foldl_pres (fun g r hg => invCount_addExtRef hg) _ _
    (foldl_pres (fun g r hg => invCount_addExtRef hg) _ _ ?_)
  refine foldl_pres (fun g r hg => invCount_addExtRef hg) _ _
    (foldl_pres (fun g r hg => invCount_addExtRef hg) _ _ ?_)
  refine foldl_pres (fun g r hg => invCount_addExtRef hg) _ _
    (foldl_pres (fun g r hg => invCount_addExtRef hg) _ _ ?_)
  refine foldl_pres (fun g r hg => invCount_addExtRef hg) _ _
    (foldl_pres (fun g r hg => invCount_addExtRef hg) _ _ ?_)
  exact foldl_pres (fun g r hg => invCount_addExtRef hg) _ _
    (foldl_pres (fun g r hg => invCount_addExtRef hg) _ _ h)

theorem invCount_processPdfDoc {g : RefGraph} {doc : PdfDoc} (h : InvCount g) :
    InvCount (processPdfDoc g doc) := by
  unfold processPdfDoc
  split
  · exact h
  · refine invCount_addExternal ?_
    refine foldl_pres (fun g r hg => invCount_addEtsiRef hg) _ _ ?_
    refine foldl_pres (fun g r hg => invCount_addEtsiRef hg) _ _ ?_
    refine invCount_setRefsCount ?_
    split
    · exact h
    · next habs => exact invCount_create_absent rfl (by simpa using habs) h

theorem invCount_processDocxDoc {g : RefGraph} {doc : DocxDoc} (h : InvCount g) :
    InvCount (processDocxDoc g doc) := by
  unfold processDocxDoc
  split
  · exact h
  · refine invCount_addExternal ?_
    refine foldl_pres (fun g r hg => invCount_addEtsiRef hg) _ _ ?_
    refine foldl_pres (fun g r hg => invCount_addEtsiRef hg) _ _ ?_
    refine invCount_setRefsCount ?_
    split
    · refine invCount_nmod_frame ?_ h
      intro n
      unfold mergeDraftNode
      dsimp only
      split <;> rfl
    · next habs => exact invCount_create_absent rfl (by simpa using habs) h

theorem invCount_assembleGraph (pdfs : List PdfDoc) (docxs : List DocxDoc) :
    InvCount (assembleGraph pdfs docxs) := by
  unfold assembleGraph
  refine foldl_pres (fun g d hg => invCount_processDocxDoc hg) _ _ ?_
  refine foldl_pres (fun g d hg => invCount_processPdfDoc hg) _ _ ?_
  intro id
  simp [inboundOf, RefGraph.empty, nget, countTo]

/-- C1 (amended): after one assembly pass, every node's inbound-reference
count (`referencedByCount`) equals the number of edges in the edge list whose
target is that node — that half of the counts is a pure function of the edge
list.  (The outbound field `referencesCount` is NOT the outbound edge count:
the source assigns it the total size of the document's `all` sets, which also
counts references that produce no edge, such as self-citations or
fallback-only matches; see the counterexample.) -/
theorem c1_inbound_recomputable (pdfs : List PdfDoc) (docxs : List DocxDoc)
    (id : String) (n : GNode)
    (h : nget (assembleGraph pdfs docxs).nodes id = some n) :
    n.referencedByCount = countTo (assembleGraph pdfs docxs).edges id := by
  have hi := invCount_assembleGraph pdfs docxs id
  unfold inboundOf at hi
  rw [h] at hi
  exact hi

/-- A one-document corpus whose only reference is a self-citation discovered
by the whole-document fallback. -/
def pdfC1 : List PdfDoc :=
  [⟨"specs/EN/en_319403v010101p.pdf", "en_319403v010101p.pdf",
    extractRefsCore none none "ETSI EN 319 403"⟩]

/-- C1 (counterexample): the original claim also asserts
`referencesCount = number of edges whose source is the node`; it fails on a
document whose `all` set contains a self-citation — the stored outbound count
is 1 while no edge leaves the node. -/
theorem c1_counterexample :
    ¬ (∀ id n, nget (assembleGraph pdfC1 []).nodes id = some n →
        n.referencedByCount = countTo (assembleGraph pdfC1 []).edges id ∧
        n.referencesCount = countFrom (assembleGraph pdfC1 []).edges id) := by
  intro h
  have hc := (h "EN 319 403"
    ⟨"EN 319 403", "EN", "etsi", some "specs/EN/en_319403v010101p.pdf", 1, 0, false⟩
    (by decide)).2
  exact absurd hc (by decide)

/-- Witness for the inbound half at the concrete corpus. -/
theorem c1_inbound_witness :
    (⟨"EN 319 403", "EN", "etsi", some "specs/EN/en_319403v010101p.pdf", 1, 0, false⟩ :
        GNode).referencedByCount
      = countTo (assembleGraph pdfC1 []).edges "EN 319 403" :=
  c1_inbound_recomputable pdfC1 [] "EN 319 403" _ (by decide)

/-!
## C7: crawl loop termination and the empty-frontier fixed point
-/

/-- A per-document extraction result with no external-domain references in
either classified region (the corpus discovered no external citations). -/
def NoExternalRefs (r : ExtractResult) : Prop :=
  r.normative.ietf = [] ∧ r.normative.iso = [] ∧ r.normative.itu = [] ∧
  r.normative.w3c = [] ∧ r.normative.oidf = [] ∧
  r.informative.ietf = [] ∧ r.informative.iso = [] ∧ r.informative.itu = [] ∧
  r.informative.w3c = [] ∧ r.informative.oidf = []

/-- Without external references, the external-edges loop does nothing. -/
theorem addExternal_noop {docId : String} {refs : ExtractResult} {g : RefGraph}
    (h : NoExternalRefs refs) : addExternal docId refs g = g := by
  obtain ⟨h1, h2, h3, h4, h5, h6, h7, h8, h9, h10⟩ := h
  unfold addExternal
  rw [h1, h2, h3, h4, h5, h6, h7, h8, h9, h10]
  rfl

/-- Every node of the graph is tagged with the primary-standard source. -/
def EtsiOnly (g : RefGraph) : Prop :=
  ∀ p ∈ g.nodes, p.2.source = "etsi"

theorem etsiOnly_addEtsiRef {docId ety : String} {g : RefGraph} {ref : String}
    (h : EtsiOnly g) : EtsiOnly (addEtsiRef docId ety g ref) := by
  unfold addEtsiRef
  split
  · exact h
  · split
    · exact h
    · unfold bumpInbound ensureNode pushEdge
      split
      · exact forall_nodes_nmod h fun j n hn => hn
      · refine forall_nodes_nmod (forall_nodes_nset h rfl) fun j n hn => hn

theorem etsiOnly_setRefsCount {g : RefGraph} {id : String} {n : Nat} (h : EtsiOnly g) :
    EtsiOnly (setRefsCount g id n) := by
  exact forall_nodes_nmod h fun j nd hn => hn

/-- `foldl` preservation where the step property may depend on membership. -/
theorem foldl_pres_mem {β : Type} {P : RefGraph → Prop} {f : RefGraph → β → RefGraph}
    (l : List β) (h : ∀ b ∈ l, ∀ g, P g → P (f g b)) :
    ∀ g, P g → P (l.foldl f g) := by
  induction l with
  | nil => intro g hg; simpa using hg
  | cons b rest ih =>
    intro g hg
    exact ih (fun x hx g1 hg1 => h x (List.mem_cons_of_mem _ hx) g1 hg1) _
      (h b (List.mem_cons_self _ _) g hg)

theorem etsiOnly_processPdfDoc {g : RefGraph} {doc : PdfDoc}
    (hd : NoExternalRefs doc.refs) (h : EtsiOnly g) :
    EtsiOnly (processPdfDoc g doc) := by
  unfold processPdfDoc
  split
  · exact h
  · rw [addExternal_noop hd]
    refine foldl_pres (fun g r hg => etsiOnly_addEtsiRef hg) _ _ ?_
    refine foldl_pres (fun g r hg => etsiOnly_addEtsiRef hg) _ _ ?_
    refine etsiOnly_setRefsCount ?_
    split
    · exact h
    · exact forall_nodes_nset h rfl

theorem etsiOnly_processDocxDoc {g : RefGraph} {doc : DocxDoc}
    (hd : NoExternalRefs doc.refs) (h : EtsiOnly g) :
    EtsiOnly (processDocxDoc g doc) := by
  unfold processDocxDoc
  split
  · exact h
  · rw [addExternal_noop hd]
    refine foldl_pres (fun g r hg => etsiOnly_addEtsiRef hg) _ _ ?_
    refine foldl_pres (fun g r hg => etsiOnly_addEtsiRef hg) _ _ ?_
    refine etsiOnly_setRefsCount ?_
    split
    · refine forall_nodes_nmod h ?_
      intro j n hn
      show (mergeDraftNode _ n).source = "etsi"
      unfold mergeDraftNode
      dsimp only
      split <;> exact hn
    · exact forall_nodes_nset h rfl

theorem etsiOnly_assembleGraph {pdfs : List PdfDoc} {docxs : List DocxDoc}
    (hp : ∀ d ∈ pdfs, NoExternalRefs d.refs) (hx : ∀ d ∈ docxs, NoExternalRefs d.refs) :
    EtsiOnly (assembleGraph pdfs docxs) := by
  unfold assembleGraph
  refine foldl_pres_mem docxs (fun d hd g hg => etsiOnly_processDocxDoc (hx d hd) hg) _ ?_
  refine foldl_pres_mem pdfs (fun d hd g hg => etsiOnly_processPdfDoc (hp d hd) hg) _ ?_
  intro p hp2
  simp [RefGraph.empty] at hp2

/-- Primary-standard nodes contribute nothing to the frontier. -/
theorem missingStep_etsi (acc : Missing) (kn : String × GNode)
    (h : kn.2.source = "etsi") : missingStep acc kn = acc := by
  unfold missingStep
  dsimp only
  rw [h]
  simp

theorem findMissing_all_etsi {g : RefGraph} (h : EtsiOnly g) :
    findMissingSpecs g = ⟨[], []⟩ := by
  unfold findMissingSpecs
  have : ∀ (l : List (String × GNode)), (∀ p ∈ l, p.2.source = "etsi") →
      ∀ acc, l.foldl missingStep acc = acc := by
    intro l
    induction l with
    | nil => intro _ acc; rfl
    | cons p rest ih =>
      intro hl acc
      rw [List.foldl_cons, missingStep_etsi acc p (hl p (List.mem_cons_self _ _))]
      exact ih (fun x hx => hl x (List.mem_cons_of_mem _ hx)) acc
  exact this g.nodes h ⟨[], []⟩

theorem crawlGo_le (maxDepth : Nat) (fe : Nat → Bool) :
    ∀ fuel depth, depth ≤ maxDepth → crawlGo maxDepth fe fuel depth ≤ maxDepth := by
  intro fuel
  induction fuel with
  | zero => intro d hd; simpa [crawlGo] using hd
  | succ f ih =>
    intro d hd
    unfold crawlGo
    by_cases hdm : d < maxDepth
    · simp only [if_pos hdm]
      by_cases hfe : fe (d + 1) = true
      · simp only [hfe, if_true]
        omega
      · simp only [hfe]
        exact ih (d + 1) (by omega)
    · simp only [if_neg hdm]
      exact hd

/-- C7 (confirmed): the crawl loop of `main` executes at most `maxDepth`
iterations for any frontier behavior; a corpus without external references
assembles to a graph whose computed frontier is empty; and on such a corpus
the loop reaches the terminal state after exactly one iteration. -/
theorem c7_crawl_fixed_point (maxDepth : Nat) (fe : Nat → Bool)
    (pdfs : List PdfDoc) (docxs : List DocxDoc) (hmd : 1 ≤ maxDepth)
    (hp : ∀ d ∈ pdfs, NoExternalRefs d.refs)
    (hx : ∀ d ∈ docxs, NoExternalRefs d.refs) :
    crawlIterations maxDepth fe ≤ maxDepth ∧
    frontierEmpty (findMissingSpecs (assembleGraph pdfs docxs)) = true ∧
    crawlIterations maxDepth
      (fun _ => frontierEmpty (findMissingSpecs (assembleGraph pdfs docxs))) = 1 := by
  have hfe : frontierEmpty (findMissingSpecs (assembleGraph pdfs docxs)) = true := by
    rw [findMissing_all_etsi (etsiOnly_assembleGraph hp hx)]
    rfl
  refine ⟨crawlGo_le maxDepth fe maxDepth 0 (by omega), hfe, ?_⟩
  cases maxDepth with
  | zero => omega
  | succ m =>
    unfold crawlIterations crawlGo
    simp [hfe]

/-- Witness: depth bound 1 on the empty corpus — one iteration, empty
frontier. -/
theorem c7_crawl_fixed_point_witness :
    crawlIterations 1 (fun _ => false) ≤ 1 ∧
    frontierEmpty (findMissingSpecs (assembleGraph [] [])) = true ∧
    crawlIterations 1 (fun _ => frontierEmpty (findMissingSpecs (assembleGraph [] []))) = 1 :=
  c7_crawl_fixed_point 1 (fun _ => false) [] [] (by omega)
    (by intro d hd; exact absurd hd (List.not_mem_nil d))
    (by intro d hd; exact absurd hd (List.not_mem_nil d))

/-!
## C9: the draft-merge rule
-/

/-- The content pointer and draft flag stored for `id` are `pd` (in
particular the node exists). -/
def FrameAt (id : String) (pd : Option String × Bool) (g : RefGraph) : Prop :=
  (nget g.nodes id).map (fun n => (n.path, n.isDraft)) = some pd

theorem frame_nmod {g : RefGraph} {k : String} {f : GNode → GNode} {id : String}
    {pd : Option String × Bool}
    (hf : ∀ n, (f n).path = n.path ∧ (f n).isDraft = n.isDraft)
    (h : FrameAt id pd g) : FrameAt id pd { g with nodes := nmod g.nodes k f } := by
  unfold FrameAt at h ⊢
  dsimp only
  by_cases hid : id = k
  · subst hid
    rw [nget_nmod_self]
    cases hn : nget g.nodes id with
    | none => rw [hn] at h; simp at h
    | some n =>
      rw [hn] at h
      simp only [Option.map_some'] at h ⊢
      rw [(hf n).1, (hf n).2]
      exact h
  · rw [nget_nmod_ne _ _ _ _ hid]
    exact h

theorem frame_addTarget {g : RefGraph} {e : GEdge} {src : String} {id : String}
    {pd : Option String × Bool} (h : FrameAt id pd g) :
    FrameAt id pd (bumpInbound (ensureNode (pushEdge g e) e.eto src) e.eto) := by
  have hbump : ∀ n : GNode,
      ({ n with referencedByCount := n.referencedByCount + 1 } : GNode).path = n.path ∧
      ({ n with referencedByCount := n.referencedByCount + 1 } : GNode).isDraft = n.isDraft :=
    fun n => ⟨rfl, rfl⟩
  unfold ensureNode pushEdge
  split
  · exact frame_nmod hbump h
  · next habs =>
    have hid : id ≠ e.eto := by
      intro hh
      unfold FrameAt at h
      unfold nhas at habs
      rw [hh] at h
      cases hn : nget g.nodes e.eto with
      | none => rw [hn] at h; simp at h
      | some n => rw [hn] at habs; simp at habs
    refine frame_nmod hbump ?_
    unfold FrameAt at h ⊢
    dsimp only
    rw [nget_nset_ne _ _ _ _ hid]
    exact h

theorem frame_addEtsiRef {docId ety : String} {g : RefGraph} {ref : String}
    {id : String} {pd : Option String × Bool} (h : FrameAt id pd g) :
    FrameAt id pd (addEtsiRef docId ety g ref) := by
  unfold addEtsiRef
  split
  · exact h
  · split
    · exact h
    · exact frame_addTarget h

theorem frame_addExtRef {docId ety ext : String} {g : RefGraph} {ref : String}
    {id : String} {pd : Option String × Bool} (h : FrameAt id pd g) :
    FrameAt id pd (addExtRef docId ety ext g ref) := by
  unfold addExtRef
  rw [ensureExternalNode_eq_ensureNode]
  exact frame_addTarget h

theorem frame_setRefsCount {g : RefGraph} {k : String} {n : Nat} {id : String}
    {pd : Option String × Bool} (h : FrameAt id pd g) :
    FrameAt id pd (setRefsCount g k n) := by
  unfold setRefsCount
  exact frame_nmod (fun nd => ⟨rfl, rfl⟩) h

theorem frame_addExternal {docId : String} {refs : ExtractResult} {g : RefGraph}
    {id : String} {pd : Option String × Bool} (h : FrameAt id pd g) :
    FrameAt id pd (addExternal docId refs g) := by
  unfold addExternal
  refine foldl_pres (fun g r hg => frame_addExtRef hg) _ _
    (foldl_pres (fun g r hg => frame_addExtRef hg) _ _ ?_)
  refine foldl_pres (fun g r hg => frame_addExtRef hg) _ _
    (foldl_pres (fun g r hg => frame_addExtRef hg) _ _ ?_)
  refine foldl_pres (fun g r hg => frame_addExtRef hg) _ _
    (foldl_pres (fun g r hg => frame_addExtRef hg) _ _ ?_)
  refine foldl_pres (fun g r hg => frame_addExtRef hg) _ _
    (foldl_pres (fun g r hg => frame_addExtRef hg) _ _ ?_)
  exact foldl_pres (fun g r hg => frame_addExtRef hg) _ _
    (foldl_pres (fun g r hg => frame_addExtRef hg) _ _ h)

/-- C9 (amended): when a draft document is merged onto an existing node, the
node's content pointer and draft flag afterwards are exactly those computed
by the merge rule: unchanged when the node carries a non-null path not ending
in `.docx` (which includes a `.doc`-backed draft node), and replaced by the
draft's pointer with the draft flag set when the path is null or ends in
`.docx`; a previously absent identifier gets a fresh draft node. -/
theorem c9_draft_merge (g : RefGraph) (doc : DocxDoc) (docId : String)
    (hid : docxDocId doc = some docId) :
    (∀ n, nget g.nodes docId = some n →
      (nget (processDocxDoc g doc).nodes docId).map (fun m => (m.path, m.isDraft))
        = some ((mergeDraftNode doc.path n).path, (mergeDraftNode doc.path n).isDraft)) ∧
    (nget g.nodes docId = none →
      (nget (processDocxDoc g doc).nodes docId).map (fun m => (m.path, m.isDraft))
        = some (some doc.path, true)) ∧
    (∀ n : GNode,
      (n.path = none →
        mergeDraftNode doc.path n = { n with isDraft := true, path := some doc.path }) ∧
      (∀ p, n.path = some p → ".docx".toList.isSuffixOf p.toList = true →
        mergeDraftNode doc.path n = { n with isDraft := true, path := some doc.path }) ∧
      (∀ p, n.path = some p → ".docx".toList.isSuffixOf p.toList = false →
        mergeDraftNode doc.path n = n)) := by
  refine ⟨?_, ?_, ?_⟩
  · intro n hn
    unfold processDocxDoc
    rw [hid]
    have hhas : nhas g.nodes docId = true := by
      unfold nhas
      rw [hn]
      rfl
    simp only [hhas, if_true]
    refine frame_addExternal (foldl_pres (fun g r hg => frame_addEtsiRef hg) _ _
      (foldl_pres (fun g r hg => frame_addEtsiRef hg) _ _
        (frame_setRefsCount ?_)))
    unfold FrameAt
    dsimp only
    rw [nget_nmod_self, hn]
    rfl
  · intro hn
    unfold processDocxDoc
    rw [hid]
    have hhas : nhas g.nodes docId = false := by
      unfold nhas
      rw [hn]
      rfl
    simp only [hhas, Bool.false_eq_true, if_false]
    refine frame_addExternal (foldl_pres (fun g r hg => frame_addEtsiRef hg) _ _
      (foldl_pres (fun g r hg => frame_addEtsiRef hg) _ _
        (frame_setRefsCount ?_)))
    unfold FrameAt
    dsimp only
    rw [nget_nset_self]
    rfl
  · intro n
    refine ⟨?_, ?_, ?_⟩
    · intro hp
      unfold mergeDraftNode
      rw [hp]
      simp
    · intro p hp hsuf
      unfold mergeDraftNode
      rw [hp]
      dsimp only
      rw [hsuf]
      simp
    · intro p hp hsuf
      unfold mergeDraftNode
      rw [hp]
      dsimp only
      rw [hsuf]
      simp

/-- The two-draft corpus of the counterexample: the same canonical identifier
first stored as a `.doc` draft, then reprocessed from a `.docx` draft. -/
def docxC9 : List DocxDoc :=
  [⟨"TS/ts_11910201v010101p.doc", "ts_11910201v010101p.doc", extractRefsCore none none ""⟩,
   ⟨"TS/ts_11910201v010102p.docx", "ts_11910201v010102p.docx", extractRefsCore none none ""⟩]

/-- C9 (counterexample): the first draft is stored from a `.doc` file, so the
node is draft-backed (`isDraft = true` with a draft-extension path), yet the
second draft's merge leaves the content pointer untouched because the code
tests only for the `.docx` suffix — contradicting the claim that a
draft-backed node is always re-pointed by a draft merge. -/
theorem c9_counterexample :
    nget (assembleGraph [] docxC9).nodes "TS 119 102-1"
      = some ⟨"TS 119 102-1", "TS", "etsi", some "TS/ts_11910201v010101p.doc", 0, 0, true⟩ ∧
    some "TS/ts_11910201v010101p.doc" ≠ some "TS/ts_11910201v010102p.docx" := by
  exact ⟨by decide, by decide⟩

/-- Witness for the amended merge rule: merging the `.docx` draft onto the
`.doc`-backed node keeps the old pointer and flag. -/
theorem c9_draft_merge_witness :
    (nget (processDocxDoc (assembleGraph [] [⟨"TS/ts_11910201v010101p.doc",
        "ts_11910201v010101p.doc", extractRefsCore none none ""⟩])
        ⟨"TS/ts_11910201v010102p.docx", "ts_11910201v010102p.docx",
          extractRefsCore none none ""⟩).nodes "TS 119 102-1").map
      (fun m => (m.path, m.isDraft))
      = some (some "TS/ts_11910201v010101p.doc", true) := by
  have h := (c9_draft_merge
    (assembleGraph [] [⟨"TS/ts_11910201v010101p.doc", "ts_11910201v010101p.doc",
      extractRefsCore none none ""⟩])
    ⟨"TS/ts_11910201v010102p.docx", "ts_11910201v010102p.docx",
      extractRefsCore none none ""⟩
    "TS 119 102-1" (by decide)).1
    ⟨"TS 119 102-1", "TS", "etsi", some "TS/ts_11910201v010101p.doc", 0, 0, true⟩
    (by decide)
  rw [h]
  decide

/-!
## C5: normative precedence and single occurrence in `all`
-/

theorem mem_addU {l : List String} {x y : String} :
    x ∈ addU l y ↔ x ∈ l ∨ x = y := by
  unfold addU
  split
  · next hy =>
    constructor
    · exact Or.inl
    · rintro (hx | rfl)
      · exact hx
      · exact hy
  · simp

theorem mem_addList_of_mem_acc {acc refs : List String} {x : String}
    (h : x ∈ acc) : x ∈ addList acc refs := by
  induction refs generalizing acc with
  | nil => exact h
  | cons r rest ih => exact ih (mem_addU.2 (Or.inl h))

theorem mem_addList_of_mem_refs {acc refs : List String} {x : String}
    (h : x ∈ refs) : x ∈ addList acc refs := by
  induction refs generalizing acc with
  | nil => exact absurd h (List.not_mem_nil x)
  | cons r rest ih =>
    rcases List.mem_cons.1 h with rfl | hx
    · exact @mem_addList_of_mem_acc (addU acc x) rest x (mem_addU.2 (Or.inr rfl))
    · exact ih hx

theorem nodup_addU {l : List String} {y : String} (h : l.Nodup) :
    (addU l y).Nodup := by
  unfold addU
  split
  · exact h
  · next hy => simp [List.nodup_append, h, hy]

theorem nodup_addList {acc refs : List String} (h : acc.Nodup) :
    (addList acc refs).Nodup := by
  induction refs generalizing acc with
  | nil => exact h
  | cons r rest ih => exact ih (nodup_addU h)

theorem not_mem_addListGuard {normF acc refs : List String} {x : String}
    (hx : x ∉ acc) (hn : x ∈ normF) : x ∉ addListGuard normF acc refs := by
  induction refs generalizing acc with
  | nil => exact hx
  | cons r rest ih =>
    unfold addListGuard at ih ⊢
    rw [List.foldl_cons]
    by_cases hr : r ∈ normF
    · simp only [if_pos hr]
      exact ih hx
    · simp only [if_neg hr]
      refine ih ?_
      intro hmem
      rcases mem_addU.1 hmem with hmem | rfl
      · exact hx hmem
      · exact hr hn

theorem get_empty (d : Domain) : DomainSets.empty.get d = [] := by
  cases d <;> rfl

theorem get_transferNorm_fst (refs : RawRefs) (n a : DomainSets) (d : Domain) :
    ((transferNorm refs n a).1).get d = addList (n.get d) (refs.get d) := by
  cases d <;> rfl

theorem get_transferNorm_snd (refs : RawRefs) (n a : DomainSets) (d : Domain) :
    ((transferNorm refs n a).2).get d = addList (a.get d) (refs.get d) := by
  cases d <;> rfl

theorem get_transferInf_fst (refs : RawRefs) (n i a : DomainSets) (d : Domain) :
    ((transferInf refs n i a).1).get d = addListGuard (n.get d) (i.get d) (refs.get d) := by
  cases d <;> rfl

theorem get_transferInf_snd (refs : RawRefs) (n i a : DomainSets) (d : Domain) :
    ((transferInf refs n i a).2).get d = addList (a.get d) (refs.get d) := by
  cases d <;> rfl

theorem get_transferAll (refs : RawRefs) (a : DomainSets) (d : Domain) :
    (transferAll refs a).get d = addList (a.get d) (refs.get d) := by
  cases d <;> rfl

theorem get_toArrays (m : DomainSets) (d : Domain) :
    (m.toArrays).get d = sortStr (m.get d) := by
  cases d <;> rfl

theorem sortStr_perm (l : List String) : List.Perm (sortStr l) l :=
  List.perm_insertionSort _ l

/-- C5 (confirmed): an identifier found by the pattern matcher in both the
normative region and the informative region of one document is classified
normative only — it is absent from the informative set — and it occurs in the
`all` list of its domain exactly once. -/
theorem c5_normative_precedence (nt it text : String) (d : Domain) (id : String)
    (hn : id ∈ (extractAllRefs nt).get d) (hi : id ∈ (extractAllRefs it).get d) :
    id ∈ (extractRefsCore (some nt) (some it) text).normative.get d ∧
    id ∉ (extractRefsCore (some nt) (some it) text).informative.get d ∧
    ((extractRefsCore (some nt) (some it) text).all.get d).count id = 1 := by
  have hdef : extractRefsCore (some nt) (some it) text
      = ⟨((transferNorm (extractAllRefs nt) DomainSets.empty DomainSets.empty).1).toArrays,
         ((transferInf (extractAllRefs it)
            (transferNorm (extractAllRefs nt) DomainSets.empty DomainSets.empty).1
            DomainSets.empty
            (transferNorm (extractAllRefs nt) DomainSets.empty DomainSets.empty).2).1).toArrays,
         (if ((transferNorm (extractAllRefs nt) DomainSets.empty DomainSets.empty).1).etsi.isEmpty
              && ((transferInf (extractAllRefs it)
                    (transferNorm (extractAllRefs nt) DomainSets.empty DomainSets.empty).1
                    DomainSets.empty
                    (transferNorm (extractAllRefs nt) DomainSets.empty
                      DomainSets.empty).2).1).etsi.isEmpty
          then transferAll (extractAllRefs text)
            ((transferInf (extractAllRefs it)
              (transferNorm (extractAllRefs nt) DomainSets.empty DomainSets.empty).1
              DomainSets.empty
              (transferNorm (extractAllRefs nt) DomainSets.empty DomainSets.empty).2).2)
          else ((transferInf (extractAllRefs it)
            (transferNorm (extractAllRefs nt) DomainSets.empty DomainSets.empty).1
            DomainSets.empty
            (transferNorm (extractAllRefs nt) DomainSets.empty
              DomainSets.empty).2).2)).toArrays⟩ := rfl
  rw [hdef]
  dsimp only
  have hmemN : id ∈ ((transferNorm (extractAllRefs nt) DomainSets.empty
      DomainSets.empty).1).get d := by
    rw [get_transferNorm_fst, get_empty]
    exact mem_addList_of_mem_refs hn
  refine ⟨?_, ?_, ?_⟩
  · rw [get_toArrays]
    exact (sortStr_perm _).mem_iff.2 hmemN
  · rw [get_toArrays]
    intro hmem
    have hmem2 := (sortStr_perm _).mem_iff.1 hmem
    rw [get_transferInf_fst, get_empty] at hmem2
    exact not_mem_addListGuard (List.not_mem_nil id) hmemN hmem2
  · have hall2mem : id ∈ ((transferInf (extractAllRefs it)
        (transferNorm (extractAllRefs nt) DomainSets.empty DomainSets.empty).1
        DomainSets.empty
        (transferNorm (extractAllRefs nt) DomainSets.empty DomainSets.empty).2).2).get d := by
      rw [get_transferInf_snd]
      refine mem_addList_of_mem_acc ?_
      rw [get_transferNorm_snd, get_empty]
      exact mem_addList_of_mem_refs hn
    have hall2nodup : (((transferInf (extractAllRefs it)
        (transferNorm (extractAllRefs nt) DomainSets.empty DomainSets.empty).1
        DomainSets.empty
        (transferNorm (extractAllRefs nt) DomainSets.empty
          DomainSets.empty).2).2).get d).Nodup := by
      rw [get_transferInf_snd]
      refine nodup_addList ?_
      rw [get_transferNorm_snd, get_empty]
      exact nodup_addList List.nodup_nil
    rw [get_toArrays]
    split
    · rw [(sortStr_perm _).count_eq, get_transferAll]
      exact List.count_eq_one_of_mem (nodup_addList hall2nodup)
        (mem_addList_of_mem_acc hall2mem)
    · rw [(sortStr_perm _).count_eq]
      exact List.count_eq_one_of_mem hall2nodup hall2mem

/-- Witness for normative precedence: the same primary-standard citation in
both regions. -/
theorem c5_normative_precedence_witness :
    "EN 319 403" ∈ (extractRefsCore (some "ETSI EN 319 403")
        (some "cites ETSI EN 319 403") "").normative.get .etsi ∧
    "EN 319 403" ∉ (extractRefsCore (some "ETSI EN 319 403")
        (some "cites ETSI EN 319 403") "").informative.get .etsi ∧
    ((extractRefsCore (some "ETSI EN 319 403")
        (some "cites ETSI EN 319 403") "").all.get .etsi).count "EN 319 403" = 1 :=
  c5_normative_precedence "ETSI EN 319 403" "cites ETSI EN 319 403" "" .etsi
    "EN 319 403" (by decide) (by decide)

/-!
## C2: filename-derived and citation-derived normalization agree

Symbolic-evaluation lemmas for the two normalization entry points.
-/

theorem toNat_bounds_of_isDigit {c : Char} (h : c.isDigit = true) :
    48 ≤ c.toNat ∧ c.toNat ≤ 57 := by
  unfold Char.isDigit at h
  rw [Bool.and_eq_true] at h
  obtain ⟨h1, h2⟩ := h
  exact ⟨UInt32.le_toNat_of_le (by norm_num) (of_decide_eq_true h1),
    UInt32.toNat_le_of_le (by norm_num) (of_decide_eq_true h2)⟩

theorem isSpaceC_of_isDigit {c : Char} (h : c.isDigit = true) : isSpaceC c = false := by
  obtain ⟨hl, hr⟩ := toNat_bounds_of_isDigit h
  unfold isSpaceC
  have h1 : c ≠ ' ' := fun hx => by subst hx; exact absurd hl (by decide)
  have h2 : c ≠ '\t' := fun hx => by subst hx; exact absurd hl (by decide)
  have h3 : c ≠ '\n' := fun hx => by subst hx; exact absurd hl (by decide)
  have h4 : c ≠ '\r' := fun hx => by subst hx; exact absurd hl (by decide)
  have h5 : c ≠ '\x0b' := fun hx => by subst hx; exact absurd hl (by decide)
  have h6 : c ≠ '\x0c' := fun hx => by subst hx; exact absurd hl (by decide)
  have h7 : c.toNat ≠ 160 := fun hx => by rw [hx] at hr; exact absurd hr (by decide)
  simp [h1, h2, h3, h4, h5, h6, h7]

theorem digitChar_isDigit {n : Nat} (h : n < 10) : (digitChar n).isDigit = true := by
  interval_cases n <;> decide

theorem digitVal_digitChar {n : Nat} (h : n < 10) : digitVal (digitChar n) = n := by
  interval_cases n <;> decide

theorem digitsToNat_append_one (l : Chars) (c : Char) :
    digitsToNat (l ++ [c]) = 10 * digitsToNat l + digitVal c := by
  simp [digitsToNat, List.foldl_append]

theorem natReprAux_digits : ∀ fuel n, ∀ c ∈ natReprAux fuel n, c.isDigit = true := by
  intro fuel
  induction fuel with
  | zero => intro n c hc; exact absurd hc (List.not_mem_nil c)
  | succ f ih =>
    intro n c hc
    unfold natReprAux at hc
    by_cases h10 : n < 10
    · rw [if_pos h10] at hc
      rw [List.mem_singleton.1 hc]
      exact digitChar_isDigit h10
    · rw [if_neg h10] at hc
      rcases List.mem_append.1 hc with hc | hc
      · exact ih _ c hc
      · rw [List.mem_singleton.1 hc]
        exact digitChar_isDigit (Nat.mod_lt _ (by norm_num))

theorem natReprAux_ne_nil (fuel n : Nat) : natReprAux (fuel + 1) n ≠ [] := by
  unfold natReprAux
  by_cases h10 : n < 10
  · simp [h10]
  · simp [h10]

theorem digitsToNat_natReprAux : ∀ fuel n, n < 10 ^ fuel →
    digitsToNat (natReprAux fuel n) = n := by
  intro fuel
  induction fuel with
  | zero =>
    intro n hn
    interval_cases n
    rfl
  | succ f ih =>
    intro n hn
    unfold natReprAux
    by_cases h10 : n < 10
    · rw [if_pos h10]
      show 10 * 0 + digitVal (digitChar n) = n
      rw [digitVal_digitChar h10]
      omega
    · rw [if_neg h10]
      rw [digitsToNat_append_one]
      have hdiv : n / 10 < 10 ^ f := by
        rw [Nat.div_lt_iff_lt_mul (by norm_num : (0:Nat) < 10)]
        rw [pow_succ] at hn
        exact hn
      rw [ih _ hdiv, digitVal_digitChar (Nat.mod_lt _ (by norm_num))]
      omega

theorem digitsToNat_natRepr (n : Nat) : digitsToNat (natRepr n).toList = n := by
  show digitsToNat (natReprAux (n + 1) n) = n
  refine digitsToNat_natReprAux (n + 1) n ?_
  calc n < 10 ^ n := Nat.lt_pow_self (by norm_num) n
    _ ≤ 10 ^ (n + 1) := Nat.pow_le_pow_right (by norm_num) (Nat.le_succ n)

theorem spanDigits_concat (d rest : Chars) (hd : ∀ c ∈ d, c.isDigit = true)
    (hr : ∀ c, rest.head? = some c → c.isDigit = false) :
    spanDigits (d ++ rest) = (d, rest) := by
  induction d with
  | nil =>
    cases rest with
    | nil => rfl
    | cons c t =>
      have := hr c rfl
      simp [spanDigits, this]
  | cons a t ih =>
    have ha := hd a (List.mem_cons_self _ _)
    have ht := ih fun c hc => hd c (List.mem_cons_of_mem _ hc)
    simp [spanDigits, ha, ht]

theorem skipWs_space (r : Chars) : skipWs (' ' :: r) = skipWs r := by
  unfold skipWs
  rw [List.dropWhile_cons, if_pos (by decide)]

theorem skipWs_nonspace {c : Char} (r : Chars) (h : isSpaceC c = false) :
    skipWs (c :: r) = c :: r := by
  unfold skipWs
  rw [List.dropWhile_cons, if_neg (by simp [h])]

theorem take3Digits_of {a b c : Char} (rest : Chars) (ha : a.isDigit = true)
    (hb : b.isDigit = true) (hc : c.isDigit = true) :
    take3Digits (a :: b :: c :: rest) = some ([a, b, c], rest) := by
  simp [take3Digits, ha, hb, hc]

theorem matchTypeCode_of {c1 c2 : Char} {ty : String} (R : Chars)
    (h1 : (⟨[upC c1, upC c2]⟩ : String) = ty) (h2 : ty ∈ typeCodes) :
    matchTypeCode (c1 :: c2 :: R) = some (ty, R) := by
  unfold matchTypeCode
  dsimp only
  rw [h1, if_pos h2]

theorem searchOpt_of_head {α : Type} (p : Chars → Option α) (fuel : Nat) (s : Chars)
    (r : α) (h : p s = some r) : searchOpt p fuel s = some r := by
  cases fuel with
  | zero => simpa [searchOpt] using h
  | succ f =>
    cases s with
    | nil => simpa [searchOpt] using h
    | cons c t =>
      unfold searchOpt
      rw [h]

theorem toList_append (s t : String) : (s ++ t).toList = s.toList ++ t.toList := by
  cases s
  cases t
  rfl

theorem normAt_plain {c1 c2 : Char} {ty : String}
    (h1 : (⟨[upC c1, upC c2]⟩ : String) = ty) (h2 : ty ∈ typeCodes)
    {a b c d e f : Char} (ha : a.isDigit = true) (hb : b.isDigit = true)
    (hc : c.isDigit = true) (hd : d.isDigit = true) (he : e.isDigit = true)
    (hf : f.isDigit = true) :
    normAt (c1 :: c2 :: ' ' :: a :: b :: c :: ' ' :: d :: e :: f :: [])
      = some (ty ++ " " ++ (⟨[a, b, c]⟩ : String) ++ " " ++ (⟨[d, e, f]⟩ : String)) := by
  unfold normAt
  rw [matchTypeCode_of _ h1 h2]
  dsimp only
  rw [skipWs_space, skipWs_nonspace _ (isSpaceC_of_isDigit ha), take3Digits_of _ ha hb hc]
  dsimp only
  rw [skipWs_space, skipWs_nonspace _ (isSpaceC_of_isDigit hd), take3Digits_of _ hd he hf]

theorem normAt_part {c1 c2 : Char} {ty : String}
    (h1 : (⟨[upC c1, upC c2]⟩ : String) = ty) (h2 : ty ∈ typeCodes)
    {a b c d e f : Char} (ha : a.isDigit = true) (hb : b.isDigit = true)
    (hc : c.isDigit = true) (hd : d.isDigit = true) (he : e.isDigit = true)
    (hf : f.isDigit = true) (p : Chars) (hp : ∀ x ∈ p, x.isDigit = true)
    (hpne : p ≠ []) :
    normAt (c1 :: c2 :: ' ' :: a :: b :: c :: ' ' :: d :: e :: f :: '-' :: p)
      = some (ty ++ " " ++ (⟨[a, b, c]⟩ : String) ++ " " ++ (⟨[d, e, f]⟩ : String)
          ++ "-" ++ natRepr (digitsToNat p)) := by
  unfold normAt
  rw [matchTypeCode_of _ h1 h2]
  dsimp only
  rw [skipWs_space, skipWs_nonspace _ (isSpaceC_of_isDigit ha), take3Digits_of _ ha hb hc]
  dsimp only
  rw [skipWs_space, skipWs_nonspace _ (isSpaceC_of_isDigit hd), take3Digits_of _ hd he hf]
  dsimp only
  have hspan : spanDigits p = (p, []) := by
    have hsp := spanDigits_concat p [] hp (fun x hx => by simp at hx)
    simpa using hsp
  have hne : p.isEmpty = false := by
    cases p with
    | nil => exact absurd rfl hpne
    | cons x t => rfl
  split
  · next r6 heq =>
    obtain rfl : p = r6 := by injection heq
    rw [hspan]
    simp [hne]
  · next x heq =>
    exact absurd rfl (heq p)

theorem filenameToDocId_6 {c1 c2 : Char} {ty : String}
    (h1 : (⟨[upC c1, upC c2]⟩ : String) = ty) (h2 : ty ∈ typeCodes)
    {a b c d e f : Char} (ha : a.isDigit = true) (hb : b.isDigit = true)
    (hc : c.isDigit = true) (hd : d.isDigit = true) (he : e.isDigit = true)
    (hf : f.isDigit = true) (rest : Chars)
    (hrest : ∀ x, rest.head? = some x → x.isDigit = false) :
    filenameToDocId ⟨c1 :: c2 :: '_' :: a :: b :: c :: d :: e :: f :: rest⟩
      = some (ty ++ " " ++ (⟨[a, b, c]⟩ : String) ++ " " ++ (⟨[d, e, f]⟩ : String)) := by
  unfold filenameToDocId
  have htl : (⟨c1 :: c2 :: '_' :: a :: b :: c :: d :: e :: f :: rest⟩ : String).toList
      = c1 :: c2 :: '_' :: a :: b :: c :: d :: e :: f :: rest := rfl
  rw [htl, matchTypeCode_of _ h1 h2]
  dsimp only
  have hdl : ∀ x ∈ [a, b, c, d, e, f], x.isDigit = true := by
    intro x hx
    simp only [List.mem_cons, List.not_mem_nil, or_false] at hx
    rcases hx with rfl | rfl | rfl | rfl | rfl | rfl <;> assumption
  have hspan := spanDigits_concat [a, b, c, d, e, f] rest hdl hrest
  rw [show ([a, b, c, d, e, f] ++ rest) = a :: b :: c :: d :: e :: f :: rest from rfl] at hspan
  split
  · next r2 heq =>
    obtain rfl : a :: b :: c :: d :: e :: f :: rest = r2 := by injection heq
    rw [hspan]
    norm_num
  · next x heq =>
    exact absurd rfl (heq (a :: b :: c :: d :: e :: f :: rest))

theorem filenameToDocId_part {c1 c2 : Char} {ty : String}
    (h1 : (⟨[upC c1, upC c2]⟩ : String) = ty) (h2 : ty ∈ typeCodes)
    {a b c d e f : Char} (ha : a.isDigit = true) (hb : b.isDigit = true)
    (hc : c.isDigit = true) (hd : d.isDigit = true) (he : e.isDigit = true)
    (hf : f.isDigit = true) (p : Chars) (hp : ∀ x ∈ p, x.isDigit = true)
    (hlen : p.length = 2 ∨ p.length = 3) (rest : Chars)
    (hrest : ∀ x, rest.head? = some x → x.isDigit = false) :
    filenameToDocId ⟨c1 :: c2 :: '_' :: a :: b :: c :: d :: e :: f :: (p ++ rest)⟩
      = some (ty ++ " " ++ (⟨[a, b, c]⟩ : String) ++ " " ++ (⟨[d, e, f]⟩ : String)
          ++ "-" ++ natRepr (digitsToNat p)) := by
  unfold filenameToDocId
  have htl : (⟨c1 :: c2 :: '_' :: a :: b :: c :: d :: e :: f :: (p ++ rest)⟩ : String).toList
      = c1 :: c2 :: '_' :: a :: b :: c :: d :: e :: f :: (p ++ rest) := rfl
  rw [htl, matchTypeCode_of _ h1 h2]
  dsimp only
  have hdl : ∀ x ∈ [a, b, c, d, e, f] ++ p, x.isDigit = true := by
    intro x hx
    rcases List.mem_append.1 hx with hx | hx
    · simp only [List.mem_cons, List.not_mem_nil, or_false] at hx
      rcases hx with rfl | rfl | rfl | rfl | rfl | rfl <;> assumption
    · exact hp x hx
  have hspan := spanDigits_concat ([a, b, c, d, e, f] ++ p) rest hdl hrest
  rw [show (([a, b, c, d, e, f] ++ p) ++ rest)
      = a :: b :: c :: d :: e :: f :: (p ++ rest) from by simp] at hspan
  split
  · next r2 heq =>
    obtain rfl : a :: b :: c :: d :: e :: f :: (p ++ rest) = r2 := by injection heq
    rw [hspan]
    have hemp : ([a, b, c, d, e, f] ++ p).isEmpty = false := rfl
    have htk3 : ([a, b, c, d, e, f] ++ p).take 3 = [a, b, c] := rfl
    have hdt3 : (([a, b, c, d, e, f] ++ p).drop 3).take 3 = [d, e, f] := rfl
    have hdr6 : ([a, b, c, d, e, f] ++ p).drop 6 = p := rfl
    rcases hlen with hl | hl
    · have h8 : ([a, b, c, d, e, f] ++ p).length = 8 := by simp [hl]
      rw [hemp, h8, htk3, hdt3, hdr6]
      norm_num
    · have h9 : ([a, b, c, d, e, f] ++ p).length = 9 := by simp [hl]
      rw [hemp, h9, htk3, hdt3, hdr6]
      norm_num
  · next x heq =>
    exact absurd rfl (heq (a :: b :: c :: d :: e :: f :: (p ++ rest)))

theorem c2_agree6 (f1 f2 u1 u2 : Char) (ty : String)
    (hfty : (⟨[upC f1, upC f2]⟩ : String) = ty)
    (hu : (⟨[upC u1, upC u2]⟩ : String) = ty)
    (hty : ty ∈ typeCodes) (htyl : ty.toList = [u1, u2])
    (a b c d e f : Char) (ha : a.isDigit = true) (hb : b.isDigit = true)
    (hc : c.isDigit = true) (hd : d.isDigit = true) (he : e.isDigit = true)
    (hf : f.isDigit = true) :
    ((filenameToDocId
        ⟨f1 :: f2 :: '_' :: a :: b :: c :: d :: e :: f :: "v010101p.pdf".toList⟩).bind
          normalizeDocId
      = normalizeDocId (ty ++ " " ++ (⟨[a, b, c]⟩ : String) ++ " " ++ (⟨[d, e, f]⟩ : String))) ∧
    ((filenameToDocId
        ⟨f1 :: f2 :: '_' :: a :: b :: c :: d :: e :: f :: "v010101p.pdf".toList⟩).bind
          normalizeDocId
      = some (ty ++ " " ++ (⟨[a, b, c]⟩ : String) ++ " " ++ (⟨[d, e, f]⟩ : String))) := by
  have hrest : ∀ x, ("v010101p.pdf".toList.head? = some x) → x.isDigit = false := by
    intro x hx
    rw [show ("v010101p.pdf".toList.head?) = some 'v' from rfl] at hx
    obtain rfl : 'v' = x := Option.some.inj hx
    decide
  have hfile := filenameToDocId_6 hfty hty ha hb hc hd he hf _ hrest
  have hsp : (" " : String).toList = [' '] := rfl
  have hcl : (ty ++ " " ++ (⟨[a, b, c]⟩ : String) ++ " "
      ++ (⟨[d, e, f]⟩ : String)).toList
      = u1 :: u2 :: ' ' :: a :: b :: c :: ' ' :: d :: e :: f :: [] := by
    simp [toList_append, hsp, show ty.data = [u1, u2] from htyl]
  have hnid : normalizeDocId (ty ++ " " ++ (⟨[a, b, c]⟩ : String) ++ " "
      ++ (⟨[d, e, f]⟩ : String))
      = some (ty ++ " " ++ (⟨[a, b, c]⟩ : String) ++ " " ++ (⟨[d, e, f]⟩ : String)) := by
    unfold normalizeDocId
    rw [hcl]
    exact searchOpt_of_head _ _ _ _ (normAt_plain hu hty ha hb hc hd he hf)
  constructor
  · rw [hfile]
    exact hnid.trans hnid.symm
  · rw [hfile]
    exact hnid

theorem c2_agreeP (f1 f2 u1 u2 : Char) (ty : String)
    (hfty : (⟨[upC f1, upC f2]⟩ : String) = ty)
    (hu : (⟨[upC u1, upC u2]⟩ : String) = ty)
    (hty : ty ∈ typeCodes) (htyl : ty.toList = [u1, u2])
    (a b c d e f : Char) (ha : a.isDigit = true) (hb : b.isDigit = true)
    (hc : c.isDigit = true) (hd : d.isDigit = true) (he : e.isDigit = true)
    (hf : f.isDigit = true) (p : Chars) (hp : ∀ x ∈ p, x.isDigit = true)
    (hplen : p.length = 2 ∨ p.length = 3) :
    ((filenameToDocId
        ⟨f1 :: f2 :: '_' :: a :: b :: c :: d :: e :: f :: (p ++ "v010101p.pdf".toList)⟩).bind
          normalizeDocId
      = normalizeDocId (ty ++ " " ++ (⟨[a, b, c]⟩ : String) ++ " "
          ++ (⟨[d, e, f]⟩ : String) ++ "-" ++ (⟨p⟩ : String))) ∧
    ((filenameToDocId
        ⟨f1 :: f2 :: '_' :: a :: b :: c :: d :: e :: f :: (p ++ "v010101p.pdf".toList)⟩).bind
          normalizeDocId
      = some (ty ++ " " ++ (⟨[a, b, c]⟩ : String) ++ " " ++ (⟨[d, e, f]⟩ : String)
          ++ "-" ++ natRepr (digitsToNat p))) := by
  have hrest : ∀ x, ("v010101p.pdf".toList.head? = some x) → x.isDigit = false := by
    intro x hx
    rw [show ("v010101p.pdf".toList.head?) = some 'v' from rfl] at hx
    obtain rfl : 'v' = x := Option.some.inj hx
    decide
  have hpne : p ≠ [] := by
    intro hnil
    rw [hnil] at hplen
    simpa using hplen
  have hfile := filenameToDocId_part hfty hty ha hb hc hd he hf p hp hplen _ hrest
  have hsp : (" " : String).toList = [' '] := rfl
  have hdash : ("-" : String).toList = ['-'] := rfl
  have hclcit : (ty ++ " " ++ (⟨[a, b, c]⟩ : String) ++ " " ++ (⟨[d, e, f]⟩ : String)
      ++ "-" ++ (⟨p⟩ : String)).toList
      = u1 :: u2 :: ' ' :: a :: b :: c :: ' ' :: d :: e :: f :: '-' :: p := by
    simp [toList_append, hsp, hdash, show ty.data = [u1, u2] from htyl]
  have hcit : normalizeDocId (ty ++ " " ++ (⟨[a, b, c]⟩ : String) ++ " "
      ++ (⟨[d, e, f]⟩ : String) ++ "-" ++ (⟨p⟩ : String))
      = some (ty ++ " " ++ (⟨[a, b, c]⟩ : String) ++ " " ++ (⟨[d, e, f]⟩ : String)
          ++ "-" ++ natRepr (digitsToNat p)) := by
    unfold normalizeDocId
    rw [hclcit]
    exact searchOpt_of_head _ _ _ _ (normAt_part hu hty ha hb hc hd he hf p hp hpne)
  have hm : (natRepr (digitsToNat p)).data
      = natReprAux (digitsToNat p + 1) (digitsToNat p) := rfl
  have hclcanon : (ty ++ " " ++ (⟨[a, b, c]⟩ : String) ++ " " ++ (⟨[d, e, f]⟩ : String)
      ++ "-" ++ natRepr (digitsToNat p)).toList
      = u1 :: u2 :: ' ' :: a :: b :: c :: ' ' :: d :: e :: f :: '-'
        :: natReprAux (digitsToNat p + 1) (digitsToNat p) := by
    simp [toList_append, hsp, hdash, hm, show ty.data = [u1, u2] from htyl]
  have hself : normalizeDocId (ty ++ " " ++ (⟨[a, b, c]⟩ : String) ++ " "
      ++ (⟨[d, e, f]⟩ : String) ++ "-" ++ natRepr (digitsToNat p))
      = some (ty ++ " " ++ (⟨[a, b, c]⟩ : String) ++ " " ++ (⟨[d, e, f]⟩ : String)
          ++ "-" ++ natRepr (digitsToNat p)) := by
    unfold normalizeDocId
    rw [hclcanon]
    have hstep := normAt_part hu hty ha hb hc hd he hf
      (natReprAux (digitsToNat p + 1) (digitsToNat p))
      (natReprAux_digits _ _) (natReprAux_ne_nil _ _)
    rw [show digitsToNat (natReprAux (digitsToNat p + 1) (digitsToNat p))
        = digitsToNat p from digitsToNat_natRepr (digitsToNat p)] at hstep
    exact searchOpt_of_head _ _ _ _ hstep
  constructor
  · rw [hfile]
    exact hself.trans hcit.symm
  · rw [hfile]
    exact hself

/-- C2 (confirmed): the filename-derived normalization
(`normalizeDocId ∘ filenameToDocId`) and the citation-derived normalization
(`normalizeDocId`) agree on the canonical identifier for every type code and
digit group: a six-digit group splits `NNN NNN` and matches the spaced
citation; an eight- or nine-digit group splits `NNN NNN` with the remaining
two or three digits read as an integer part suffix (leading zeros stripped),
matching the citation spelled with the raw part digits.  In particular
filename group `319403` and citation `EN 319 403` both normalize to
`EN 319 403`, `11910201` yields `TS 119 102-1`, and the nine-digit group
`119102010` yields the two-digit part `TS 119 102-10`. -/
theorem c2_normalization_agreement :
    (∀ ty ∈ typeCodes, ∀ a b c d e f : Char,
      ([a, b, c, d, e, f].all Char.isDigit) = true →
      (filenameToDocId
          ⟨(ty.toList.map lowC) ++ '_' :: a :: b :: c :: d :: e :: f
            :: "v010101p.pdf".toList⟩).bind normalizeDocId
        = normalizeDocId (ty ++ " " ++ (⟨[a, b, c]⟩ : String) ++ " "
            ++ (⟨[d, e, f]⟩ : String)) ∧
      (filenameToDocId
          ⟨(ty.toList.map lowC) ++ '_' :: a :: b :: c :: d :: e :: f
            :: "v010101p.pdf".toList⟩).bind normalizeDocId
        = some (ty ++ " " ++ (⟨[a, b, c]⟩ : String) ++ " " ++ (⟨[d, e, f]⟩ : String))) ∧
    (∀ ty ∈ typeCodes, ∀ a b c d e f : Char, ∀ p : Chars,
      ([a, b, c, d, e, f].all Char.isDigit) = true → (p.all Char.isDigit) = true →
      (p.length = 2 ∨ p.length = 3) →
      (filenameToDocId
          ⟨(ty.toList.map lowC) ++ '_' :: a :: b :: c :: d :: e :: f
            :: (p ++ "v010101p.pdf".toList)⟩).bind normalizeDocId
        = normalizeDocId (ty ++ " " ++ (⟨[a, b, c]⟩ : String) ++ " "
            ++ (⟨[d, e, f]⟩ : String) ++ "-" ++ (⟨p⟩ : String)) ∧
      (filenameToDocId
          ⟨(ty.toList.map lowC) ++ '_' :: a :: b :: c :: d :: e :: f
            :: (p ++ "v010101p.pdf".toList)⟩).bind normalizeDocId
        = some (ty ++ " " ++ (⟨[a, b, c]⟩ : String) ++ " " ++ (⟨[d, e, f]⟩ : String)
            ++ "-" ++ natRepr (digitsToNat p))) ∧
    ((filenameToDocId "en_319403v020202p.pdf").bind normalizeDocId = some "EN 319 403" ∧
     normalizeDocId "EN 319 403" = some "EN 319 403" ∧
     (filenameToDocId "ts_11910201v010201p.pdf").bind normalizeDocId = some "TS 119 102-1" ∧
     normalizeDocId "TS 119 102-01" = some "TS 119 102-1" ∧
     (filenameToDocId "ts_119102010v010201p.pdf").bind normalizeDocId
        = some "TS 119 102-10" ∧
     normalizeDocId "TS 119 102-10" = some "TS 119 102-10") := by
  refine ⟨?_, ?_, by decide, by decide, by decide, by decide, by decide, by decide⟩
  · intro ty hty a b c d e f hdig
    simp only [List.all_cons, List.all_nil, Bool.and_eq_true, and_true] at hdig
    obtain ⟨ha, hb, hc, hd, he, hf⟩ := hdig
    simp only [typeCodes, List.mem_cons, List.not_mem_nil, or_false] at hty
    rcases hty with rfl | rfl | rfl | rfl | rfl | rfl
    · rw [show ("EN".toList.map lowC) = ['e', 'n'] from by decide]
      exact c2_agree6 'e' 'n' 'E' 'N' "EN" (by decide) (by decide) (by decide) (by decide)
        a b c d e f ha hb hc hd he hf
    · rw [show ("TS".toList.map lowC) = ['t', 's'] from by decide]
      exact c2_agree6 't' 's' 'T' 'S' "TS" (by decide) (by decide) (by decide) (by decide)
        a b c d e f ha hb hc hd he hf
    · rw [show ("TR".toList.map lowC) = ['t', 'r'] from by decide]
      exact c2_agree6 't' 'r' 'T' 'R' "TR" (by decide) (by decide) (by decide) (by decide)
        a b c d e f ha hb hc hd he hf
    · rw [show ("ES".toList.map lowC) = ['e', 's'] from by decide]
      exact c2_agree6 'e' 's' 'E' 'S' "ES" (by decide) (by decide) (by decide) (by decide)
        a b c d e f ha hb hc hd he hf
    · rw [show ("EG".toList.map lowC) = ['e', 'g'] from by decide]
      exact c2_agree6 'e' 'g' 'E' 'G' "EG" (by decide) (by decide) (by decide) (by decide)
        a b c d e f ha hb hc hd he hf
    · rw [show ("SR".toList.map lowC) = ['s', 'r'] from by decide]
      exact c2_agree6 's' 'r' 'S' 'R' "SR" (by decide) (by decide) (by decide) (by decide)
        a b c d e f ha hb hc hd he hf
  · intro ty hty a b c d e f p hdig hpdig hplen
    simp only [List.all_cons, List.all_nil, Bool.and_eq_true, and_true] at hdig
    obtain ⟨ha, hb, hc, hd, he, hf⟩ := hdig
    have hp : ∀ x ∈ p, x.isDigit = true := fun x hx => List.all_eq_true.1 hpdig x hx
    simp only [typeCodes, List.mem_cons, List.not_mem_nil, or_false] at hty
    rcases hty with rfl | rfl | rfl | rfl | rfl | rfl
    · rw [show ("EN".toList.map lowC) = ['e', 'n'] from by decide]
      exact c2_agreeP 'e' 'n' 'E' 'N' "EN" (by decide) (by decide) (by decide) (by decide)
        a b c d e f ha hb hc hd he hf p hp hplen
    · rw [show ("TS".toList.map lowC) = ['t', 's'] from by decide]
      exact c2_agreeP 't' 's' 'T' 'S' "TS" (by decide) (by decide) (by decide) (by decide)
        a b c d e f ha hb hc hd he hf p hp hplen
    · rw [show ("TR".toList.map lowC) = ['t', 'r'] from by decide]
      exact c2_agreeP 't' 'r' 'T' 'R' "TR" (by decide) (by decide) (by decide) (by decide)
        a b c d e f ha hb hc hd he hf p hp hplen
    · rw [show ("ES".toList.map lowC) = ['e', 's'] from by decide]
      exact c2_agreeP 'e' 's' 'E' 'S' "ES" (by decide) (by decide) (by decide) (by decide)
        a b c d e f ha hb hc hd he hf p hp hplen
    · rw [show ("EG".toList.map lowC) = ['e', 'g'] from by decide]
      exact c2_agreeP 'e' 'g' 'E' 'G' "EG" (by decide) (by decide) (by decide) (by decide)
        a b c d e f ha hb hc hd he hf p hp hplen
    · rw [show ("SR".toList.map lowC) = ['s', 'r'] from by decide]
      exact c2_agreeP 's' 'r' 'S' 'R' "SR" (by decide) (by decide) (by decide) (by decide)
        a b c d e f ha hb hc hd he hf p hp hplen

/-- Witness for the normalization agreement on the claim's own examples:
`en_319403...` versus `EN 319 403`, and the eight-digit `11910201` versus
`TS 119 102-01`. -/
theorem c2_normalization_agreement_witness :
    ((filenameToDocId
        ⟨("EN".toList.map lowC) ++ '_' :: '3' :: '1' :: '9' :: '4' :: '0' :: '3'
          :: "v010101p.pdf".toList⟩).bind normalizeDocId
      = normalizeDocId ("EN" ++ " " ++ (⟨['3', '1', '9']⟩ : String) ++ " "
          ++ (⟨['4', '0', '3']⟩ : String))) ∧
    ((filenameToDocId
        ⟨("TS".toList.map lowC) ++ '_' :: '1' :: '1' :: '9' :: '1' :: '0' :: '2'
          :: (['0', '1'] ++ "v010101p.pdf".toList)⟩).bind normalizeDocId
      = some ("TS" ++ " " ++ (⟨['1', '1', '9']⟩ : String) ++ " "
          ++ (⟨['1', '0', '2']⟩ : String) ++ "-" ++ natRepr (digitsToNat ['0', '1']))) :=
  ⟨(c2_normalization_agreement.1 "EN" (by decide) '3' '1' '9' '4' '0' '3' (by decide)).1,
   (c2_normalization_agreement.2.1 "TS" (by decide) '1' '1' '9' '1' '0' '2' ['0', '1']
      (by decide) (by decide) (by norm_num)).2⟩

end EudiNexus
